import Mathlib

/-!
# Sentry: frontier scheduling, URL rows and content-addressed blobs

A shallow embedding of `url.go` (package `main`) and of `file.go` and
`snapshot.go` of `vendor/github.com/datatogether/archive`, followed by the
properties proved about them.

Conventions of the embedding

* Go `int`, `int64` and `time.Duration` values are integers (`Int`); the two
  places where the source does 64-bit arithmetic (`time.Unix` and
  `Time.Unix`) wrap explicitly with `wrapInt64`.
* A Go pointer that may be `nil` is an `Option`; dereferencing `nil` panics,
  and a function that can panic returns `Option _` with `none` for the panic.
* Package-level variables and library functions that the source only calls
  (`cfg.StaleDuration`, `enqued`, `(*url.URL).String`, `url.Parse`,
  `NormalizeURL`, `json.Marshal`, the database handle, the S3 service) are
  parameters; the instances used at concrete inputs are defined next to them.
-/

namespace Sentry

set_option linter.dupNamespace false
set_option maxRecDepth 100000

/-! ## Errors -/

/-- Go `error` values that the embedded code creates, compares or forwards.
`ErrNotFound` is the package's own not-found signal, `ErrNoRows` is
`sql.ErrNoRows`, and `msg s` is any other error, carrying its text. -/
inductive Error where
  | ErrNotFound
  | ErrNoRows
  | msg (s : String)
deriving DecidableEq, Repr

/-- The text of an error, `err.Error()`. The text of `ErrNotFound` is declared
outside the embedded sources; no property depends on it. -/
def Error.Error : Sentry.Error → String
  | Error.ErrNotFound => "Not Found"
  | Error.ErrNoRows => "sql: no rows in result set"
  | Error.msg s => s

/-! ## Package `time` -/

/-- Reduction of an integer to the range of a two's-complement `int64`. -/
def wrapInt64 (x : Int) : Int :=
  (x + 2 ^ 63) % 2 ^ 64 - 2 ^ 63

/-- The largest `time.Duration`, in nanoseconds. -/
def maxDuration : Int := 2 ^ 63 - 1

/-- The smallest `time.Duration`, in nanoseconds. -/
def minDuration : Int := -(2 ^ 63)

/-- Saturation of an exact difference to the range of `time.Duration`. -/
def saturate (d : Int) : Int :=
  if d > maxDuration then maxDuration
  else if d < minDuration then minDuration
  else d

/-- A `*time.Location`: `nil` and `&utcLoc` both mean UTC, `&localLoc` is
`time.Local`, any other location is identified by its name. -/
inductive Location where
  | UTC
  | Local
  | named (name : String)
deriving DecidableEq, Repr

/-- A `time.Time`: `sec` counts seconds since January 1, year 1 00:00:00 UTC
(what Go's unexported `sec()` returns), `nsec` is the nanosecond within that
second, `mono` is the monotonic clock reading in nanoseconds when the value
carries one, and `loc` is the location pointer. Go's `==` on `time.Time`
compares the wall reading, the monotonic reading and the location, which is
equality of this structure. -/
structure Time where
  sec : Int
  nsec : Nat
  mono : Option Int
  loc : Location
deriving DecidableEq, Repr

/-- The zero value `time.Time{}`. -/
def Time.zero : Time := { sec := 0, nsec := 0, mono := none, loc := Location.UTC }

/-- Offset between the Unix epoch and January 1 of year 1, in seconds. -/
def unixToInternal : Int := 62135596800

/-- Go's `Time.IsZero`: the instant is January 1, year 1, 00:00:00 UTC. -/
def Time.IsZero (t : Time) : Bool :=
  t.sec == 0 && t.nsec == 0

/-- Go's `Time.Unix`: seconds since January 1, 1970 UTC, computed in `int64`. -/
def Time.Unix (t : Time) : Int :=
  wrapInt64 (t.sec - unixToInternal)

/-- Go's `time.Unix(sec, 0)`: the local `Time` of the given Unix second; it
carries no monotonic reading. -/
def timeUnix (sec : Int) : Time :=
  { sec := wrapInt64 (sec + unixToInternal), nsec := 0, mono := none, loc := Location.Local }

/-- Exact number of nanoseconds from `u` to `t` on the wall clock. -/
def Time.wallDiff (t u : Time) : Int :=
  (t.sec - u.sec) * 1000000000 + ((t.nsec : Int) - (u.nsec : Int))

/-- Go's `Time.Sub`: the duration `t - u`, saturated to the range of
`Duration`; when both values carry a monotonic reading the readings alone are
compared. -/
def Time.Sub (t u : Time) : Int :=
  match t.mono, u.mono with
  | some a, some b => saturate (a - b)
  | _, _ => saturate (t.wallDiff u)

/-- Go's `time.Since(t)`, with `now` the value of `time.Now()` at the call. -/
def Since (now t : Time) : Int :=
  now.Sub t

/-- One hour as a `time.Duration`. -/
def Hour : Int := 3600 * 1000000000

/-- One minute as a `time.Duration`. -/
def Minute : Int := 60 * 1000000000

/-! ## Package `net/url` -/

/-- The `url.Userinfo` of a URL: a username and an optional password. -/
structure Userinfo where
  username : String
  password : Option String
deriving DecidableEq, Repr

/-- A `url.URL` value, with the fields of the Go structure. -/
structure URL where
  Scheme : String
  Opaque : String
  User : Option Userinfo
  Host : String
  Path : String
  RawPath : String
  ForceQuery : Bool
  RawQuery : String
  Fragment : String
deriving DecidableEq, Repr

/-! ## `url.go`: the URL record -/

/-- The `Url` record of `url.go`. The field `Url` is a `*url.URL`. -/
structure Url where
  Url : Option URL
  Created : Time
  Updated : Time
  LastGet : Time
  Host : String
  Status : Int
  ContentType : String
  ContentLength : Int
  Title : String
deriving DecidableEq, Repr

/-- Method `Url.ShouldEnqueueGet`. `now` is `time.Now()`, `StaleDuration` is
`cfg.StaleDuration`, `enqued` is the package-level in-flight map (a missing
key reads as `false`) and `urlString` is `(*url.URL).String`. Go's `&&`
evaluates `enqued[u.Url.String()]` only when the left operand is true; with a
`nil` `u.Url` that evaluation panics. -/
def Url.ShouldEnqueueGet (now : Time) (StaleDuration : Int) (enqued : String → Bool)
    (urlString : URL → String) (u : Sentry.Url) : Option Bool :=
  if u.LastGet.IsZero || decide (Since now u.LastGet > StaleDuration) then
    match u.Url with
    | none => none
    | some x => some (!enqued (urlString x))
  else
    some false

/-- Method `Url.ShouldEnqueueHead`, with the parameters of `Url.ShouldEnqueueGet`. -/
def Url.ShouldEnqueueHead (now : Time) (StaleDuration : Int) (enqued : String → Bool)
    (urlString : URL → String) (u : Sentry.Url) : Option Bool :=
  if decide (u.Created = u.Updated) || u.LastGet.IsZero
      || decide (Since now u.Updated > StaleDuration) then
    match u.Url with
    | none => none
    | some x => some (!enqued (urlString x))
  else
    some false

/-- A value passed to, or stored by, the database: the dynamic type of an
`interface{}` argument of `Exec`. -/
inductive SQLValue where
  | text (s : String)
  | integer (i : Int)
deriving DecidableEq, Repr

/-- Function `urlCols`: the column list of the `urls` table. -/
def urlCols : String :=
  "url, created, updated, last_get, host, status, content_type, content_length, title"

/-- Method `Url.SQLArgs`. Panics (`none`) when `u.Url` is `nil`. -/
def Url.SQLArgs (urlString : URL → String) (u : Sentry.Url) : Option (List SQLValue) :=
  let t : Int := if !u.LastGet.IsZero then u.LastGet.Unix else 0
  match u.Url with
  | none => none
  | some x =>
    some [ SQLValue.text (urlString x),
           SQLValue.integer u.Created.Unix,
           SQLValue.integer u.Updated.Unix,
           SQLValue.integer t,
           SQLValue.text u.Host,
           SQLValue.integer u.Status,
           SQLValue.text u.ContentType,
           SQLValue.integer u.ContentLength,
           SQLValue.text u.Title ]

/-- What a call of `Insert` or `Update` leaves behind when it returns: the
record as mutated through the receiver, the statement and the arguments handed
to `db.Exec`, and the returned error. -/
structure ExecOutcome where
  u : Url
  query : String
  args : List SQLValue
  err : Option Error
deriving DecidableEq, Repr

/-- The statement text of `Url.Insert`. -/
def insertQuery : String :=
  "insert into urls (" ++ urlCols ++ ") values ($1, $2, $3, $4, $5, $6, $7, $8, $9)"

/-- The statement text of `Url.Update`. -/
def updateQuery : String :=
  "update urls set created=$2, updated=$3, last_get=$4, host=$5, status=$6, content_type=$7, content_length=$8, title=$9 where url = $1"

/-- Method `Url.Insert`. `NormalizeURL` maps a `*url.URL` to a `*url.URL`, `dbExec`
gives the error that `db.Exec` returns for a statement and its arguments.
The result is `none` when the call panics on a `nil` URL. -/
def Url.Insert (now : Time) (NormalizeURL : Option URL → Option URL)
    (urlString : URL → String) (dbExec : String → List SQLValue → Option Error)
    (u : Sentry.Url) : Option ExecOutcome :=
  let u1 := { u with Created := now }
  let u2 := { u1 with Updated := u1.Created }
  let u3 := { u2 with Url := NormalizeURL u2.Url }
  match u3.Url with
  | none => none
  | some x =>
    let u4 := { u3 with Host := x.Host }
    match u4.SQLArgs urlString with
    | none => none
    | some args =>
      some { u := u4, query := insertQuery, args := args, err := dbExec insertQuery args }

/-- Method `Url.Update`, with the parameters of `Url.Insert`. -/
def Url.Update (now : Time) (NormalizeURL : Option URL → Option URL)
    (urlString : URL → String) (dbExec : String → List SQLValue → Option Error)
    (u : Sentry.Url) : Option ExecOutcome :=
  let u1 := { u with Updated := now }
  let u2 := { u1 with Url := NormalizeURL u1.Url }
  let u3 := if u2.ContentLength < -1 then { u2 with ContentLength := -1 } else u2
  let u4 := if u3.Status < -1 then { u3 with Status := -1 } else u3
  match u4.SQLArgs urlString with
  | none => none
  | some args =>
    some { u := u4, query := updateQuery, args := args, err := dbExec updateQuery args }

/-- The nine values that `row.Scan` stores into the destinations of
`Url.UnmarshalSQL`, in the order of the call. -/
structure UrlRow where
  rawurl : String
  created : Int
  updated : Int
  lastGet : Int
  host : String
  status : Int
  mime : String
  length : Int
  title : String
deriving DecidableEq, Repr

/-- What a call of `Url.UnmarshalSQL` leaves behind: the receiver, the errors
handed to `logger.Println`, and the returned error. -/
structure ReadOutcome where
  u : Url
  logged : List Error
  err : Option Error
deriving DecidableEq, Repr

/-- Method `Url.UnmarshalSQL`. The argument `scan` is the outcome of `row.Scan` on
the nine destinations: an error, or the scanned values. `urlParse` is
`url.Parse`. -/
def Url.UnmarshalSQL (urlParse : String → Except Error URL) (u : Sentry.Url)
    (scan : Except Error UrlRow) : ReadOutcome :=
  match scan with
  | Except.error err =>
    if err = Error.ErrNoRows then
      { u := u, logged := [], err := some Error.ErrNotFound }
    else
      { u := u, logged := [err], err := some err }
  | Except.ok r =>
    match urlParse r.rawurl with
    | Except.error err => { u := u, logged := [], err := some err }
    | Except.ok parsedUrl =>
      { u := { Created := timeUnix r.created,
               Updated := timeUnix r.updated,
               LastGet := timeUnix r.lastGet,
               Url := some parsedUrl,
               Host := r.host,
               Status := r.status,
               ContentType := r.mime,
               ContentLength := r.length,
               Title := r.title },
        logged := [],
        err := none }

/-- The row a database holds after a write of the nine arguments of
`Url.SQLArgs`, as `row.Scan` returns it to `Url.UnmarshalSQL`: text columns
into the `string` destinations and integer columns into the integer ones.
Any other shape is not a row of the `urls` table. -/
def scanArgs : List SQLValue → Option UrlRow
  | [ SQLValue.text rawurl, SQLValue.integer created, SQLValue.integer updated,
      SQLValue.integer lastGet, SQLValue.text host, SQLValue.integer status,
      SQLValue.text mime, SQLValue.integer length, SQLValue.text title ] =>
    some { rawurl := rawurl, created := created, updated := updated, lastGet := lastGet,
           host := host, status := status, mime := mime, length := length, title := title }
  | _ => none

/-- Method `Url.Read`. `dbQueryRow` gives, for a statement and its arguments,
the outcome of `Scan` on the row that `db.QueryRow` returns. -/
def Url.Read (urlString : URL → String) (urlParse : String → Except Error URL)
    (dbQueryRow : String → List SQLValue → Except Error UrlRow) (u : Sentry.Url) :
    ReadOutcome :=
  match u.Url with
  | some x =>
    u.UnmarshalSQL urlParse
      (dbQueryRow ("select " ++ urlCols ++ " from urls where url = $1")
        [SQLValue.text (urlString x)])
  | none => { u := u, logged := [], err := some Error.ErrNotFound }

/-- A `urls` table that holds exactly the row written with the arguments
`args`: a lookup by the url of that row scans the stored values back, any
other lookup finds no row. -/
def rowTable (args : List SQLValue) : String → List SQLValue → Except Error UrlRow :=
  fun _ key =>
    match scanArgs args with
    | some r => if key = [SQLValue.text r.rawurl] then Except.ok r else Except.error Error.ErrNoRows
    | none => Except.error Error.ErrNoRows

/-- Field-for-field equality of two records, the timestamps compared by their
Unix seconds. -/
def Url.sameAtSeconds (a b : Sentry.Url) : Prop :=
  a.Url = b.Url ∧ a.Created.Unix = b.Created.Unix ∧ a.Updated.Unix = b.Updated.Unix ∧
  a.LastGet.Unix = b.LastGet.Unix ∧ a.Host = b.Host ∧ a.Status = b.Status ∧
  a.ContentType = b.ContentType ∧ a.ContentLength = b.ContentLength ∧ a.Title = b.Title

instance (a b : Sentry.Url) : Decidable (a.sameAtSeconds b) := by
  unfold Url.sameAtSeconds
  exact inferInstance

/-! ### Concrete inputs

The library parameters are instantiated, at concrete inputs, by a rendering
and a parser of plain `scheme://host/path` addresses, on which they agree with
`(*url.URL).String` and `url.Parse`. -/

/-- Rendering of a URL that has only a scheme, a host and a path. -/
def plainString (x : URL) : String :=
  x.Scheme ++ "://" ++ x.Host ++ x.Path

/-- Parser of `scheme://host/path` addresses. -/
def plainParse (s : String) : Except Error URL :=
  match s.toList.span (fun c => c != ':') with
  | (scheme, ':' :: '/' :: '/' :: rest) =>
    match rest.span (fun c => c != '/') with
    | (host, path) =>
      Except.ok { Scheme := String.mk scheme, Opaque := "", User := none,
                  Host := String.mk host, Path := String.mk path, RawPath := "",
                  ForceQuery := false, RawQuery := "", Fragment := "" }
  | _ => Except.error (Error.msg "missing protocol scheme")

/-- The address `http://example.com/`. -/
def exampleURL : URL :=
  { Scheme := "http", Opaque := "", User := none, Host := "example.com", Path := "/",
    RawPath := "", ForceQuery := false, RawQuery := "", Fragment := "" }

/-- A record of `http://example.com/` created at Unix second 1500000000 and
fetched last at Unix second 1500003600. -/
def fetchedUrl : Url :=
  { Url := some exampleURL, Created := timeUnix 1500000000, Updated := timeUnix 1500003600,
    LastGet := timeUnix 1500003600, Host := "example.com", Status := 200,
    ContentType := "text/html", ContentLength := 1024, Title := "Example" }

/-- A record of `http://example.com/` that was never fetched: `LastGet` is
the zero `time.Time`. -/
def neverFetchedUrl : Url :=
  { Url := some exampleURL, Created := timeUnix 1500000000, Updated := timeUnix 1500000000,
    LastGet := Time.zero, Host := "example.com", Status := 0,
    ContentType := "", ContentLength := 0, Title := "" }

/-- A reading of `time.Now()` at Unix second `sec`, with monotonic reading
`mono`. -/
def nowAt (sec : Int) (mono : Int) : Time :=
  { sec := sec + unixToInternal, nsec := 0, mono := some mono, loc := Location.Local }

/-- An in-flight map without any marker. -/
def noneEnqued : String → Bool := fun _ => false

/-- A database handle whose `Exec` always succeeds. -/
def execOk : String → List SQLValue → Option Error := fun _ _ => none

/-- A record of `http://example.com/` whose `Status` and `ContentLength` are
both below -1. -/
def belowRangeUrl : Url :=
  { Url := some exampleURL, Created := Time.zero, Updated := Time.zero,
    LastGet := Time.zero, Host := "", Status := -5,
    ContentType := "", ContentLength := -7, Title := "" }

/-- The row that a write of `neverFetchedUrl` stores: its `last_get` column
is 0. -/
def neverFetchedRow : UrlRow :=
  { rawurl := "http://example.com/", created := 1500000000, updated := 1500000000,
    lastGet := 0, host := "example.com", status := 0, mime := "", length := 0, title := "" }

/-- Insert of a record into an empty `urls` table followed by a read of the
same record from the table that holds the written row: the record as `Insert`
left it, and the outcome of `Read`. -/
def roundTrip (now : Time) (NormalizeURL : Option URL → Option URL)
    (urlString : URL → String) (urlParse : String → Except Error URL) (u : Url) :
    Option (Url × ReadOutcome) :=
  (u.Insert now NormalizeURL urlString execOk).map
    (fun o => (o.u, o.u.Read urlString urlParse (rowTable o.args)))

/-! ## Package `crypto/sha256`

SHA-256 as specified in FIPS 180-4, on 32-bit words held as natural numbers
below `2 ^ 32`. -/

/-- Reduction to a 32-bit word. -/
def mask32 (x : Nat) : Nat := x % 4294967296

/-- Rotation of a 32-bit word to the right by `n` bits. -/
def rotr (x n : Nat) : Nat := mask32 ((x >>> n) ||| (x <<< (32 - n)))

/-- Primality by trial division. -/
def isPrime (n : Nat) : Bool :=
  decide (2 ≤ n) && (List.range n).all (fun d => decide (d < 2) || n % d != 0)

/-- The first sixty-four primes, 2 to 311. -/
def sha256Primes : List Nat :=
  (List.range 312).filter isPrime

/-- The largest `r` below `2 ^ bits` with `r ^ 2 ≤ n`, found bit by bit from
the top. -/
def sqrtBits : Nat → Nat → Nat → Nat
  | 0, _, r => r
  | bits + 1, n, r =>
    if (r + 2 ^ bits) * (r + 2 ^ bits) ≤ n then sqrtBits bits n (r + 2 ^ bits)
    else sqrtBits bits n r

/-- The largest `r` below `2 ^ bits` with `r ^ 3 ≤ n`, found bit by bit from
the top. -/
def cbrtBits : Nat → Nat → Nat → Nat
  | 0, _, r => r
  | bits + 1, n, r =>
    if (r + 2 ^ bits) * (r + 2 ^ bits) * (r + 2 ^ bits) ≤ n then cbrtBits bits n (r + 2 ^ bits)
    else cbrtBits bits n r

/-- The sixty-four round constants: the first thirty-two bits of the
fractional parts of the cube roots of the first sixty-four primes. -/
def sha256K : List Nat :=
  sha256Primes.map (fun p => mask32 (cbrtBits 40 (p * 2 ^ 96) 0))

/-- The eight working words of SHA-256. -/
structure Sha256State where
  a : Nat
  b : Nat
  c : Nat
  d : Nat
  e : Nat
  f : Nat
  g : Nat
  h : Nat
deriving DecidableEq, Repr

/-- The first thirty-two bits of the fractional part of the square root of a
prime. -/
def sqrtFraction (p : Nat) : Nat :=
  mask32 (sqrtBits 40 (p * 2 ^ 64) 0)

/-- The initial hash value: the first thirty-two bits of the fractional parts
of the square roots of the first eight primes. -/
def sha256Init : Sha256State :=
  { a := sqrtFraction 2, b := sqrtFraction 3, c := sqrtFraction 5, d := sqrtFraction 7,
    e := sqrtFraction 11, f := sqrtFraction 13, g := sqrtFraction 17, h := sqrtFraction 19 }

/-- Padding of a message: the byte 0x80, zero bytes up to 56 modulo 64, and
the length in bits as eight big-endian bytes. -/
def sha256Pad (data : List Nat) : List Nat :=
  let len := data.length
  let zeros := (119 - len % 64) % 64
  data ++ [128] ++ List.replicate zeros 0 ++
    (List.range 8).map (fun i => ((len * 8) >>> (8 * (7 - i))) % 256)

/-- Big-endian 32-bit words of a byte sequence. -/
def beWords : List Nat → List Nat
  | b0 :: b1 :: b2 :: b3 :: rest => (b0 * 16777216 + b1 * 65536 + b2 * 256 + b3) :: beWords rest
  | _ => []

/-- Extension of the message schedule, held newest word first, by `n` words. -/
def sha256Schedule : Nat → List Nat → List Nat
  | 0, w => w
  | n + 1, w =>
    let w2 := w.getD 1 0
    let w7 := w.getD 6 0
    let w15 := w.getD 14 0
    let w16 := w.getD 15 0
    let s0 := (rotr w15 7) ^^^ (rotr w15 18) ^^^ (w15 >>> 3)
    let s1 := (rotr w2 17) ^^^ (rotr w2 19) ^^^ (w2 >>> 10)
    sha256Schedule n (mask32 (w16 + s0 + w7 + s1) :: w)

/-- One round of the compression function, on a round constant and a schedule
word. -/
def sha256Round (s : Sha256State) (kw : Nat × Nat) : Sha256State :=
  let S1 := (rotr s.e 6) ^^^ (rotr s.e 11) ^^^ (rotr s.e 25)
  let ch := (s.e &&& s.f) ^^^ ((4294967295 - s.e) &&& s.g)
  let t1 := mask32 (s.h + S1 + ch + kw.1 + kw.2)
  let S0 := (rotr s.a 2) ^^^ (rotr s.a 13) ^^^ (rotr s.a 22)
  let maj := (s.a &&& s.b) ^^^ (s.a &&& s.c) ^^^ (s.b &&& s.c)
  let t2 := mask32 (S0 + maj)
  { a := mask32 (t1 + t2), b := s.a, c := s.b, d := s.c,
    e := mask32 (s.d + t1), f := s.e, g := s.f, h := s.g }

/-- Compression of one 64-byte block into the hash value. -/
def sha256Block (s : Sha256State) (block : List Nat) : Sha256State :=
  let w := (sha256Schedule 48 (beWords block).reverse).reverse
  let r := (sha256K.zip w).foldl sha256Round s
  { a := mask32 (s.a + r.a), b := mask32 (s.b + r.b), c := mask32 (s.c + r.c),
    d := mask32 (s.d + r.d), e := mask32 (s.e + r.e), f := mask32 (s.f + r.f),
    g := mask32 (s.g + r.g), h := mask32 (s.h + r.h) }

/-- Compression of the first `n` blocks of a padded message. -/
def sha256Blocks : Nat → Sha256State → List Nat → Sha256State
  | 0, s, _ => s
  | n + 1, s, bytes => sha256Blocks n (sha256Block s (bytes.take 64)) (bytes.drop 64)

/-- Big-endian bytes of a 32-bit word. -/
def be32 (w : Nat) : List UInt8 :=
  [UInt8.ofNat (w >>> 24), UInt8.ofNat (w >>> 16), UInt8.ofNat (w >>> 8), UInt8.ofNat w]

/-- The SHA-256 digest of a byte sequence: what `h.Sum(nil)` returns after
`h := sha256.New()` and `h.Write(data)`. -/
def sha256Sum (data : List UInt8) : List UInt8 :=
  let padded := sha256Pad (data.map UInt8.toNat)
  let s := sha256Blocks (padded.length / 64) sha256Init padded
  be32 s.a ++ be32 s.b ++ be32 s.c ++ be32 s.d ++ be32 s.e ++ be32 s.f ++ be32 s.g ++ be32 s.h

/-! ## Packages `encoding/hex` and `go-multihash` -/

/-- The digits of `encoding/hex`. -/
def hextable : List Char := "0123456789abcdef".toList

/-- Go's `hex.EncodeToString`: two lower-case hexadecimal digits per byte. -/
def EncodeToString (src : List UInt8) : String :=
  String.mk (src.flatMap
    (fun v => [hextable.getD (v.toNat >>> 4) '0', hextable.getD (v.toNat &&& 15) '0']))

/-- The call `multihash.EncodeName(buf, "sha2-256")`: the function code 0x12
and the length of the digest, one byte each, followed by the digest. A digest
longer than 127 bytes is refused. -/
def EncodeNameSha2_256 (buf : List UInt8) : Except Error (List UInt8) :=
  if buf.length > 127 then
    Except.error (Error.msg "multihash length not supported")
  else
    Except.ok (UInt8.ofNat 0x12 :: UInt8.ofNat buf.length :: buf)

/-! ## `archive/file.go`: files and the blob store

Go strings are sequences of characters here; the byte slice `f.Hash[4:]`
drops four characters, which is what Go does on the ASCII text of a
hexadecimal digest. -/

/-- The `File` structure of `file.go`. `Data` is a `[]byte` that may be
`nil`. -/
structure File where
  Url : String
  Data : Option (List UInt8)
  Hash : String
deriving DecidableEq, Repr

/-- Method `File.calcHash`: the receiver afterwards, and the returned error.
Writing a `nil` slice to the hash writes nothing. -/
def File.calcHash (f : File) : File × Option Error :=
  match EncodeNameSha2_256 (sha256Sum (f.Data.getD [])) with
  | Except.error err => (f, some err)
  | Except.ok mhBuf => ({ f with Hash := EncodeToString mhBuf }, none)

/-- The Go slice expression `s[n:]` on a string; it panics (`none`) when the
string is shorter than `n`. -/
def sliceFrom (s : String) (n : Nat) : Option String :=
  if s.length < n then none else some (String.mk (s.toList.drop n))

/-- Method `File.Filename`: the receiver afterwards, with the returned name
or the returned error; `none` when the slice expression panics. -/
def File.Filename (f : File) : Option (File × Except Error String) :=
  if f.Data.isNone && f.Hash == "" then
    some (f, Except.error (Error.msg "no data or hash for filename"))
  else
    let r := if f.Hash == "" then f.calcHash else (f, none)
    match r with
    | (f1, some err) => some (f1, Except.error err)
    | (f1, none) => (sliceFrom f1.Hash 4).map (fun name => (f1, Except.ok name))

/-- The package variables of `archive` that name the bucket and the path
prefix of the blobs. -/
structure AwsConfig where
  AwsS3BucketName : String
  AwsS3BucketPath : String
deriving DecidableEq, Repr

/-- Method `File.s3Path`. -/
def File.s3Path (cfg : AwsConfig) (filename : String) : String :=
  cfg.AwsS3BucketPath ++ "/" ++ filename

/-- A request sent to the S3 service. -/
inductive S3Request where
  | HeadObject (bucket key : String)
  | PutObject (acl bucket key : String) (body : List UInt8)
  | DeleteObject (bucket key : String)
deriving DecidableEq, Repr

/-- The S3 service as the code uses it, over a store of type `σ`: each
operation gives the error of the call (`none` for success); `HeadObject` only
reads the store, `PutObject` and `DeleteObject` also give the store
afterwards. -/
structure S3 (σ : Type) where
  HeadObject : σ → String → String → Option Error
  PutObject : σ → String → String → String → List UInt8 → σ × Option Error
  DeleteObject : σ → String → String → σ × Option Error

/-- What a call of `PutS3` or `Delete` leaves behind: the receiver, the
store, the requests sent in order, and the returned error. -/
structure S3Outcome (σ : Type) where
  f : File
  store : σ
  requests : List S3Request
  err : Option Error

/-- The canned ACL `s3.BucketCannedACLPublicRead`. -/
def BucketCannedACLPublicRead : String := "public-read"

/-- Method `File.PutS3`; `none` when `Filename` panics. -/
def File.PutS3 {σ : Type} (svc : S3 σ) (cfg : AwsConfig) (s : σ) (f : File) :
    Option (S3Outcome σ) :=
  match f.Data with
  | none =>
    some { f := f, store := s, requests := [],
           err := some (Error.msg ("no data for saving url to s3: '" ++ f.Url ++ "'")) }
  | some data =>
    if data.length = 0 then
      some { f := f, store := s, requests := [],
             err := some (Error.msg ("no data for saving url to s3: '" ++ f.Url ++ "'")) }
    else
      match f.Filename with
      | none => none
      | some (f1, Except.error err) => some { f := f1, store := s, requests := [], err := some err }
      | some (f1, Except.ok filename) =>
        let key := File.s3Path cfg filename
        match svc.HeadObject s cfg.AwsS3BucketName key with
        | some _ =>
          let put := svc.PutObject s BucketCannedACLPublicRead cfg.AwsS3BucketName key data
          some { f := f1, store := put.1,
                 requests := [S3Request.HeadObject cfg.AwsS3BucketName key,
                   S3Request.PutObject BucketCannedACLPublicRead cfg.AwsS3BucketName key data],
                 err := put.2 }
        | none =>
          some { f := f1, store := s,
                 requests := [S3Request.HeadObject cfg.AwsS3BucketName key], err := none }

/-- Method `File.Delete`; `none` when `Filename` panics. The error of
`DeleteObject` is assigned to `err` and `nil` is returned. -/
def File.Delete {σ : Type} (svc : S3 σ) (cfg : AwsConfig) (s : σ) (f : File) :
    Option (S3Outcome σ) :=
  match f.Filename with
  | none => none
  | some (f1, Except.error err) => some { f := f1, store := s, requests := [], err := some err }
  | some (f1, Except.ok filename) =>
    let key := File.s3Path cfg filename
    let del := svc.DeleteObject s cfg.AwsS3BucketName key
    some { f := f1, store := del.1,
           requests := [S3Request.DeleteObject cfg.AwsS3BucketName key], err := none }

/-- Function `NewFileFromRes`. `body` is the outcome of copying the response
body into the buffer: the error of `io.Copy`, or the bytes read. -/
def NewFileFromRes (url : String) (body : Except Error (List UInt8)) : Except Error File :=
  match body with
  | Except.error err => Except.error err
  | Except.ok data =>
    match File.calcHash { Url := url, Data := some data, Hash := "" } with
    | (_, some err) =>
      Except.error
        (Error.msg ("err calculating hash for url: " ++ url ++ " error: " ++ err.Error))
    | (f, none) => Except.ok f

/-! ### A blob store

The blob store collaborator as a list of objects, each under a bucket and a
key, with at most one object per bucket and key. -/

/-- The objects of a blob store. -/
abbrev Blobs := List ((String × String) × List UInt8)

/-- The objects stored under a bucket and key. -/
def Blobs.entries (s : Blobs) (bucket key : String) : List (List UInt8) :=
  (s.filter (fun o => o.1 = (bucket, key))).map (fun o => o.2)

/-- An S3 service without failures over `Blobs`: `HeadObject` fails exactly
when no object is stored under the key, `PutObject` stores the body as the
one object under the key, `DeleteObject` removes the objects under the key. -/
def blobS3 : S3 Blobs where
  HeadObject := fun s bucket key =>
    if s.entries bucket key = [] then some (Error.msg "NotFound") else none
  PutObject := fun s _ bucket key body =>
    (((bucket, key), body) :: s.filter (fun o => o.1 ≠ (bucket, key)), none)
  DeleteObject := fun s bucket key =>
    (s.filter (fun o => o.1 ≠ (bucket, key)), none)

/-- An S3 service on which every call fails with `AccessDenied` and nothing
is ever stored. -/
def deniedS3 : S3 Unit where
  HeadObject := fun _ _ _ => some (Error.msg "AccessDenied")
  PutObject := fun _ _ _ _ _ => ((), some (Error.msg "AccessDenied"))
  DeleteObject := fun _ _ _ => ((), some (Error.msg "AccessDenied"))

/-- The bucket `bucket` with the path prefix `urls`. -/
def exampleConfig : AwsConfig :=
  { AwsS3BucketName := "bucket", AwsS3BucketPath := "urls" }

/-- A file of `http://example.com/` holding the three bytes `abc`, its hash
not yet computed. -/
def abcFile : File :=
  { Url := "http://example.com/", Data := some [97, 98, 99], Hash := "" }

/-- The statement that `Url.Read` hands to `db.QueryRow`. -/
def readQuery : String :=
  "select " ++ urlCols ++ " from urls where url = $1"

/-- A database handle whose lookup finds no row. -/
def queryNoRows : String → List SQLValue → Except Error UrlRow :=
  fun _ _ => Except.error Error.ErrNoRows

/-- A database handle whose lookup fails with a connection error. -/
def queryBroken : String → List SQLValue → Except Error UrlRow :=
  fun _ _ => Except.error (Error.msg "driver: bad connection")

/-! ## Package `strings` -/

/-- Scan of `strings.Split`: `skip` counts the characters of a separator that
was just matched and are still to be passed over, `acc` holds the current
piece in reverse. -/
def splitAux (sep : List Char) : List Char → Nat → List Char → List (List Char)
  | [], _, acc => [acc.reverse]
  | _ :: cs, skip + 1, acc => splitAux sep cs skip acc
  | c :: cs, 0, acc =>
    if sep.isPrefixOf (c :: cs) then acc.reverse :: splitAux sep cs (sep.length - 1) []
    else splitAux sep cs 0 (c :: acc)

/-- Go's `strings.Split(s, sep)` for a separator that is not empty. -/
def Split (s sep : String) : List String :=
  (splitAux sep.toList s.toList 0 []).map String.mk

/-! ## The layout of the `urls` row in the statements -/

/-- The column names that `urlCols` lists, in order. -/
def columnNames : List String :=
  Split urlCols ", "

/-- The pairs of column and placeholder in the statement of `Url.Update`: the
pair of the `where` clause followed by the pairs of the `set` clause, in the
order of the statement. -/
def updatePlaceholders : List (List String) :=
  match Split updateQuery " where " with
  | [setClause, whereClause] =>
    Split whereClause " = " ::
      (Split (String.mk (setClause.toList.drop "update urls set ".length)) ", ").map
        (fun assignment => Split assignment "=")
  | _ => []

/-! ## Package `goquery`: documents -/

/-- An element node of a parsed HTML document: its tag name and its
attributes, in the order of the source. -/
structure Element where
  tag : String
  attrs : List (String × String)
deriving DecidableEq, Repr

/-- A `goquery.Document`, given by its element nodes in document order. -/
abbrev Document := List Element

/-- Method `Selection.Attr` of an element: the value of the first attribute
with the given name, if there is one. -/
def Element.Attr (e : Element) (name : String) : Option String :=
  (e.attrs.find? (fun a => a.1 == name)).map (fun a => a.2)

/-- The selection `doc.Find("a[href]")`: the `a` elements that carry an
`href` attribute, in document order. -/
def Document.anchors (doc : Document) : List Element :=
  doc.filter (fun e => e.tag == "a" && (e.Attr "href").isSome)

/-! ## `url.go`: link extraction -/

/-- Modelled from the spec: the `Link` type, declared in the package outside
the embedded sources: a directed edge from the record `Src` to the record
`Dst`, the two fields that `DocLinks` sets. -/
structure Link where
  Src : Url
  Dst : Url
deriving DecidableEq, Repr

/-- The zero value `Url{}`. -/
def Url.zero : Sentry.Url :=
  { Url := none, Created := Time.zero, Updated := Time.zero, LastGet := Time.zero,
    Host := "", Status := 0, ContentType := "", ContentLength := 0, Title := "" }

/-- What a call of `DocLinks` leaves behind: the returned links, the lines
handed to `logger.Printf`, and the returned error. -/
structure LinksOutcome where
  links : List Link
  logged : List String
  err : Option Error
deriving DecidableEq, Repr

/-- The body of the closure that `DocLinks` runs on one anchor, on the links
and log lines collected so far. `urlResolve` is `(*url.URL).Parse` on the
receiver `u.Url`, which may be `nil`; its result `none` is a panic. -/
def Url.docLinksStep (urlResolve : Option URL → String → Option (Except Error URL))
    (NormalizeURL : Option URL → Option URL) (u : Sentry.Url)
    (acc : Option (List Link × List String)) (s : Element) :
    Option (List Link × List String) :=
  match acc with
  | none => none
  | some (links, logged) =>
    let val := (s.Attr "href").getD ""
    match urlResolve u.Url val with
    | none => none
    | some (Except.error err) =>
      some (links, logged ++ ["error: resolve URL " ++ val ++ " - " ++ err.Error ++ "\n"])
    | some (Except.ok address) =>
      some (links ++ [{ Src := u, Dst := { Sentry.Url.zero with Url := NormalizeURL (some address) } }],
        logged)

/-- Method `Url.DocLinks`; `none` when resolving an address panics. -/
def Url.DocLinks (urlResolve : Option URL → String → Option (Except Error URL))
    (NormalizeURL : Option URL → Option URL) (u : Sentry.Url) (doc : Document) :
    Option LinksOutcome :=
  (doc.anchors.foldl (u.docLinksStep urlResolve NormalizeURL) (some ([], []))).map
    (fun r => { links := r.1, logged := r.2, err := none })

/-- The edge that `DocLinks` makes of one anchor, if its address resolves. -/
def Url.edgeOf (urlResolve : Option URL → String → Option (Except Error URL))
    (NormalizeURL : Option URL → Option URL) (u : Sentry.Url) (s : Element) : Option Link :=
  match urlResolve u.Url ((s.Attr "href").getD "") with
  | some (Except.ok address) =>
    some { Src := u, Dst := { Sentry.Url.zero with Url := NormalizeURL (some address) } }
  | _ => none

/-- The line that `DocLinks` logs for one anchor, if its address fails to
parse. -/
def Url.logLineOf (urlResolve : Option URL → String → Option (Except Error URL))
    (u : Sentry.Url) (s : Element) : Option String :=
  match urlResolve u.Url ((s.Attr "href").getD "") with
  | some (Except.error err) =>
    some ("error: resolve URL " ++ (s.Attr "href").getD "" ++ " - " ++ err.Error ++ "\n")
  | _ => none

/-! ## Package `net/url` on plain addresses

A model of `url.Parse`, `(*url.URL).ResolveReference`, `(*url.URL).Parse` and
`(*url.URL).String` that follows the Go functions on addresses written with
letters, digits and the characters `- _ . ~ / : ? # = & + , ; $`. Such
addresses hold no user information and nothing that is escaped or unescaped,
so that the escaped path of a URL is its path. Any other address is reported
as an error by this model. -/

/-- The characters of a plain address. -/
def plainChar (c : Char) : Bool :=
  c.isAlphanum || "-_.~/:?#=&+,;$".toList.contains c

/-- Scan of Go's `getscheme` from the character after the ones in `acc`,
which holds the scanned characters in reverse. -/
def getschemeAux (rawurl : List Char) : List Char → List Char →
    Except Error (List Char × List Char)
  | [], _ => Except.ok ([], rawurl)
  | c :: cs, acc =>
    if c.isAlpha then getschemeAux rawurl cs (c :: acc)
    else if c.isDigit || c == '+' || c == '-' || c == '.' then
      if acc.isEmpty then Except.ok ([], rawurl) else getschemeAux rawurl cs (c :: acc)
    else if c == ':' then
      if acc.isEmpty then Except.error (Error.msg "missing protocol scheme")
      else Except.ok (acc.reverse, cs)
    else Except.ok ([], rawurl)

/-- Go's `getscheme`: the scheme of an address and what follows its colon, or
no scheme and the whole address. -/
def getscheme (rawurl : List Char) : Except Error (List Char × List Char) :=
  getschemeAux rawurl rawurl []

/-- An optional port as Go's `validOptionalPort` accepts it: nothing, or a
colon followed by digits. -/
def validOptionalPort : List Char → Bool
  | [] => true
  | c :: cs => c == ':' && cs.all Char.isDigit

/-- The part of a host from its last colon on, empty when it has no colon. -/
def colonPort (host : List Char) : List Char :=
  if host.contains ':' then
    ':' :: (host.reverse.takeWhile (fun c => c != ':')).reverse
  else []

/-- Go's `parse` on an address without fragment, not via a request. -/
def parseNoFragment (rawurl : List Char) : Except Error URL :=
  if rawurl = ['*'] then
    Except.ok { Scheme := "", Opaque := "", User := none, Host := "", Path := "*",
                RawPath := "", ForceQuery := false, RawQuery := "", Fragment := "" }
  else
    match getscheme rawurl with
    | Except.error err => Except.error err
    | Except.ok (scheme, afterScheme) =>
      let scheme := scheme.map Char.toLower
      let forceQuery := afterScheme.getLast? == some '?' && afterScheme.count '?' == 1
      let rest := if forceQuery then afterScheme.dropLast
                  else afterScheme.takeWhile (fun c => c != '?')
      let rawQuery := if forceQuery then []
                      else (afterScheme.dropWhile (fun c => c != '?')).drop 1
      if rest.head? != some '/' && !scheme.isEmpty then
        Except.ok { Scheme := String.mk scheme, Opaque := String.mk rest, User := none,
                    Host := "", Path := "", RawPath := "", ForceQuery := forceQuery,
                    RawQuery := String.mk rawQuery, Fragment := "" }
      else if rest.head? != some '/' &&
          (rest.takeWhile (fun c => c != '/')).contains ':' then
        Except.error (Error.msg "first path segment in URL cannot contain colon")
      else if (!scheme.isEmpty || !(['/', '/', '/'].isPrefixOf rest)) &&
          ['/', '/'].isPrefixOf rest then
        let authority := (rest.drop 2).takeWhile (fun c => c != '/')
        let path := (rest.drop 2).dropWhile (fun c => c != '/')
        if !validOptionalPort (colonPort authority) then
          Except.error (Error.msg ("invalid port \"" ++ String.mk (colonPort authority) ++
            "\" after host"))
        else
          Except.ok { Scheme := String.mk scheme, Opaque := "", User := none,
                      Host := String.mk authority, Path := String.mk path, RawPath := "",
                      ForceQuery := forceQuery, RawQuery := String.mk rawQuery,
                      Fragment := "" }
      else
        Except.ok { Scheme := String.mk scheme, Opaque := "", User := none, Host := "",
                    Path := String.mk rest, RawPath := "", ForceQuery := forceQuery,
                    RawQuery := String.mk rawQuery, Fragment := "" }

/-- Go's `url.Parse` on plain addresses: the fragment is cut off at the first
`#`, the rest goes through `parse`, and an error is wrapped with the
operation and the address. -/
def parseURL (rawurl : String) : Except Error URL :=
  if !rawurl.toList.all plainChar then
    Except.error (Error.msg ("parse " ++ rawurl ++ ": not a plain address"))
  else
    match parseNoFragment (rawurl.toList.takeWhile (fun c => c != '#')) with
    | Except.error err =>
      Except.error (Error.msg ("parse " ++
        String.mk (rawurl.toList.takeWhile (fun c => c != '#')) ++ ": " ++ err.Error))
    | Except.ok url =>
      Except.ok { url with
        Fragment := String.mk ((rawurl.toList.dropWhile (fun c => c != '#')).drop 1) }

/-- The loop of Go's `resolvePath` over the elements of the split path:
`.` is dropped, `..` removes the element before it. `dst` is held in
reverse. -/
def resolveElems : List (List Char) → List (List Char) → List (List Char)
  | [], dst => dst.reverse
  | elem :: rest, dst =>
    if elem = ['.'] then resolveElems rest dst
    else if elem = ['.', '.'] then resolveElems rest (dst.drop 1)
    else resolveElems rest (elem :: dst)

/-- Go's `resolvePath`: the reference path resolved against the base path,
without `.` and `..` elements. -/
def resolvePath (base ref : String) : String :=
  let full : List Char :=
    if ref.toList.isEmpty then base.toList
    else if ref.toList.head? != some '/' then
      (base.toList.reverse.dropWhile (fun c => c != '/')).reverse ++ ref.toList
    else ref.toList
  if full.isEmpty then ""
  else
    let src := splitAux ['/'] full 0 []
    let dst := resolveElems src []
    let dst := if src.getLast? = some ['.'] || src.getLast? = some ['.', '.'] then dst ++ [[]]
               else dst
    String.mk ('/' :: (List.intercalate ['/'] dst).dropWhile (fun c => c == '/'))

/-- Go's `(*url.URL).ResolveReference` on a receiver that may be `nil`; the
result `none` is the panic of dereferencing a `nil` receiver. -/
def ResolveReference (u : Option URL) (ref : URL) : Option URL :=
  if ref.Scheme != "" then
    some { ref with Path := resolvePath ref.Path "", RawPath := "" }
  else
    match u with
    | none => none
    | some base =>
      if ref.Host != "" || ref.User.isSome then
        some { ref with Scheme := base.Scheme, Path := resolvePath ref.Path "", RawPath := "" }
      else if ref.Opaque != "" then
        some { ref with Scheme := base.Scheme, User := none, Host := "", Path := "" }
      else
        some { ref with
          Scheme := base.Scheme,
          RawQuery := if ref.Path == "" && ref.RawQuery == "" then base.RawQuery
                      else ref.RawQuery,
          Fragment := if ref.Path == "" && ref.RawQuery == "" && ref.Fragment == "" then
                        base.Fragment
                      else ref.Fragment,
          Host := base.Host,
          User := base.User,
          Path := resolvePath base.Path ref.Path,
          RawPath := "" }

/-- Go's `(*url.URL).Parse`: the reference is parsed and resolved against
the receiver. An unparsable reference is an error also on a `nil` receiver;
the result `none` is a panic. -/
def resolveURL (u : Option URL) (ref : String) : Option (Except Error URL) :=
  match parseURL ref with
  | Except.error err => some (Except.error err)
  | Except.ok refURL => (ResolveReference u refURL).map Except.ok

/-- Go's `(*url.URL).String` on a URL without user information whose parts
are plain. -/
def urlText (u : URL) : String :=
  let scheme := if u.Scheme != "" then u.Scheme ++ ":" else ""
  let body :=
    if u.Opaque != "" then u.Opaque
    else
      let authority := if u.Scheme != "" || u.Host != "" || u.User.isSome then "//" ++ u.Host
                       else ""
      let guard :=
        if scheme == "" && authority == "" &&
            (u.Path.toList.takeWhile (fun c => c != '/')).contains ':' then "./"
        else ""
      authority ++ guard ++ u.Path
  let query := if u.ForceQuery || u.RawQuery != "" then "?" ++ u.RawQuery else ""
  let fragment := if u.Fragment != "" then "#" ++ u.Fragment else ""
  scheme ++ body ++ query ++ fragment

/-! ## The URL normalizer -/

/-- A host without the default port of its scheme: `:80` for `http`, `:443`
for `https`. -/
def stripDefaultPort (scheme host : List Char) : List Char :=
  if scheme = "http".toList && [':', '8', '0'].isSuffixOf host then host.take (host.length - 3)
  else if scheme = "https".toList && [':', '4', '4', '3'].isSuffixOf host then
    host.take (host.length - 4)
  else host

/-- Modelled from the spec: `NormalizeURL`, declared in the package outside
the embedded sources. Section 4.1 of the specification: the scheme and the
host are put in lower case, the default port is stripped, the fragment is
dropped, the path and the query are kept as they are. A `nil` URL stays
`nil`. -/
def NormalizeURL : Option URL → Option URL
  | none => none
  | some u =>
    some { u with
      Scheme := String.mk (u.Scheme.toList.map Char.toLower),
      Host := String.mk (stripDefaultPort (u.Scheme.toList.map Char.toLower)
        (u.Host.toList.map Char.toLower)),
      Fragment := "" }

/-! ### The example page -/

/-- The address `http://site.com/page`. -/
def sitePageURL : URL :=
  { Scheme := "http", Opaque := "", User := none, Host := "site.com", Path := "/page",
    RawPath := "", ForceQuery := false, RawQuery := "", Fragment := "" }

/-- The record of the page `http://site.com/page`. -/
def sitePage : Url :=
  { Url.zero with Url := some sitePageURL, Host := "site.com" }

/-- A document with three anchors, of addresses `/a`, `http://x.com/b` and
`#frag`, among other elements. -/
def sitePageDoc : Document :=
  [ { tag := "html", attrs := [] },
    { tag := "body", attrs := [] },
    { tag := "a", attrs := [("href", "/a")] },
    { tag := "p", attrs := [("class", "note")] },
    { tag := "a", attrs := [("class", "ext"), ("href", "http://x.com/b")] },
    { tag := "a", attrs := [("name", "top")] },
    { tag := "a", attrs := [("href", "#frag")] } ]

/-! ## `archive/snapshot.go`: snapshots

The byte slices of this file, the JSON text of the headers and the bytes of a
scanned text column, are held as strings. -/

/-- Go's `Time.In(time.UTC)`: the same instant in UTC, without monotonic
reading. -/
def Time.InUTC (t : Time) : Time :=
  { t with loc := Location.UTC, mono := none }

/-- Go's `Time.Round(time.Second)`: the nearest whole second, halfway values
rounded up, without monotonic reading. -/
def Time.RoundSecond (t : Time) : Time :=
  if 2 * t.nsec < 1000000000 then { t with nsec := 0, mono := none }
  else { t with sec := wrapInt64 (t.sec + 1), nsec := 0, mono := none }

/-- Modelled from the spec: the `Url` record of package `archive`, declared
outside the embedded sources, with the fields that `WriteSnapshot` reads: the
URL string, the time of the last GET (a pointer that may be `nil`), the HTTP
status, the download duration in milliseconds, the response headers as a
sequence of keys and values (a slice that may be `nil`) and the content
hash. -/
structure ArchiveUrl where
  Url : String
  LastGet : Option Time
  Status : Int
  DownloadTook : Int
  Headers : Option (List String)
  Hash : String
deriving DecidableEq, Repr

/-- The `Snapshot` structure of `snapshot.go`. `Headers` is a `[]string` that
may be `nil`. -/
structure Snapshot where
  Url : String
  Created : Time
  Status : Int
  Duration : Int
  Headers : Option (List String)
  Hash : String
deriving DecidableEq, Repr

/-- A row of the `snapshots` table, with the columns of `qSnapshotCreateTable`
in the order in which `qSnapshotInsert` and `qSnapshotsByUrl` list them: `url`,
`created`, `status`, `duration`, `meta` (JSON, may be NULL) and `hash`. -/
structure SnapshotRow where
  url : String
  created : Time
  status : Int
  duration : Int
  meta : Option String
  hash : String
deriving DecidableEq, Repr

/-- The statement `qSnapshotInsert`. -/
def qSnapshotInsert : String :=
  "\ninsert into snapshots \n  (url, created, status, duration, meta, hash)\nvalues \n  ($1, $2, $3, $4, $5, $6);"

/-- The statement `qSnapshotsByUrl`. -/
def qSnapshotsByUrl : String :=
  "\nselect\n  url, created, status, duration, meta, hash\nfrom snapshots \nwhere \n  url = $1;"

/-- What a call of `WriteSnapshot` leaves behind: the row made of the six
arguments `$1` to `$6` handed to `db.Exec` with `qSnapshotInsert`, if the call
got that far, and the returned error. -/
structure WriteOutcome where
  row : Option SnapshotRow
  err : Option Error
deriving DecidableEq, Repr

/-- Function `WriteSnapshot`. `jsonMarshal` is `json.Marshal` on a `[]string`,
`dbExec` gives the error that `db.Exec` returns for the statement and the row
of its arguments. The result is `none` when `u.LastGet` is `nil`, which
panics. -/
def WriteSnapshot (jsonMarshal : Option (List String) → Except Error String)
    (dbExec : String → SnapshotRow → Option Error) (u : ArchiveUrl) : Option WriteOutcome :=
  match jsonMarshal u.Headers with
  | Except.error err => some { row := none, err := some err }
  | Except.ok data =>
    match u.LastGet with
    | none => none
    | some lastGet =>
      let row : SnapshotRow :=
        { url := u.Url, created := lastGet.InUTC.RoundSecond, status := u.Status,
          duration := u.DownloadTook, meta := some data, hash := u.Hash }
      some { row := some row, err := dbExec qSnapshotInsert row }

/-- The six values that `row.Scan` stores into the destinations of
`Snapshot.UnmarshalSQL`, in the order of the call: `url`, `created`, `status`,
`duration`, `hash` and `headerData`, the last one a `[]byte` that may be
`nil`. -/
structure SnapshotScan where
  url : String
  created : Time
  status : Int
  duration : Int
  hash : String
  headerData : Option String
deriving DecidableEq, Repr

/-- The call `row.Scan(&url, &created, &status, &duration, &hash, &headerData)`
on a row of `qSnapshotsByUrl`: the columns are assigned to the destinations
by position. The fifth column, `meta`, goes to the string `hash`, into which
a NULL cannot be stored; the sixth column, `hash`, goes to the byte slice
`headerData`. -/
def scanSnapshot (row : SnapshotRow) : Except Error SnapshotScan :=
  match row.meta with
  | none =>
    Except.error (Error.msg
      "sql: Scan error on column index 4: unsupported Scan, storing driver.Value type <nil> into type *string")
  | some meta =>
    Except.ok { url := row.url, created := row.created, status := row.status,
                duration := row.duration, hash := meta, headerData := some row.hash }

/-- Method `Snapshot.UnmarshalSQL`: the receiver afterwards and the returned
error. `scan` is the outcome of `row.Scan` on the six destinations and
`jsonUnmarshal` is `json.Unmarshal` into a `[]string` that is `nil` before the
call. -/
def Snapshot.UnmarshalSQL (jsonUnmarshal : String → Except Error (Option (List String)))
    (s : Snapshot) (scan : Except Error SnapshotScan) : Snapshot × Option Error :=
  match scan with
  | Except.error err => (s, some err)
  | Except.ok v =>
    let decoded : Except Error (Option (List String)) :=
      match v.headerData with
      | none => Except.ok none
      | some headerData => jsonUnmarshal headerData
    match decoded with
    | Except.error err => (s, some err)
    | Except.ok headers =>
      ({ Url := v.url, Created := v.created.InUTC, Status := v.status,
         Duration := v.duration, Hash := v.hash, Headers := headers }, none)

/-- A snapshot written by `WriteSnapshot` and read back: the row that the
database stores when `Exec` succeeds is scanned into a zero `Snapshot`. The
result is the written row with the snapshot and the error of
`UnmarshalSQL`. -/
def snapshotRoundTrip (jsonMarshal : Option (List String) → Except Error String)
    (jsonUnmarshal : String → Except Error (Option (List String))) (u : ArchiveUrl) :
    Option (SnapshotRow × Snapshot × Option Error) :=
  match WriteSnapshot jsonMarshal (fun _ _ => none) u with
  | some { row := some row, err := none } =>
    some (row, Snapshot.UnmarshalSQL jsonUnmarshal
      { Url := "", Created := Time.zero, Status := 0, Duration := 0, Headers := none,
        Hash := "" }
      (scanSnapshot row))
  | _ => none

/-! ### JSON of plain strings

An instance of `json.Marshal` and `json.Unmarshal` for sequences of strings
written with letters, digits, spaces and the characters `- / ; = . : ,`, in
texts without white space between the tokens. Such strings need no escape. -/

/-- The characters of a plain header string. -/
def plainHeaderChar (c : Char) : Bool :=
  c.isAlphanum || " -/;=.:,".toList.contains c

/-- The JSON text of a `[]string`: `null` for a `nil` slice, else the quoted
strings between brackets, separated by commas. -/
def marshalStrings : Option (List String) → Except Error String
  | none => Except.ok "null"
  | some l => Except.ok ("[" ++ ",".intercalate (l.map (fun s => "\"" ++ s ++ "\"")) ++ "]")

/-- The strings of the text between the brackets of a JSON array of plain
strings: `inString` tells whether the scan is inside a quoted string, `acc`
holds its characters in reverse, `afterComma` whether a string has to
follow. -/
def unmarshalItems : List Char → Bool → Bool → List Char → Option (List String)
  | [], inString, afterComma, _ => if inString || afterComma then none else some []
  | c :: cs, true, _, acc =>
    if c == '"' then
      match cs with
      | [] => some [String.mk acc.reverse]
      | ',' :: rest => (unmarshalItems rest false true []).map (fun l => String.mk acc.reverse :: l)
      | _ => none
    else if plainHeaderChar c then unmarshalItems cs true false (c :: acc)
    else none
  | c :: cs, false, _, _ =>
    if c == '"' then unmarshalItems cs true false [] else none

/-- Decoding of a JSON text into a `[]string` that is `nil` before the call:
`null` leaves it `nil`, an array of plain strings fills it, and every text
that is not a JSON array or `null`, such as the empty text or a
hexadecimal hash, is an error. The text of the error is that of Go only
for the empty input. -/
def unmarshalStrings (data : String) : Except Error (Option (List String)) :=
  if data = "null" then Except.ok none
  else
    match data.toList with
    | '[' :: rest =>
      if rest.getLast? = some ']' then
        match unmarshalItems rest.dropLast false false [] with
        | some l => Except.ok (some l)
        | none => Except.error (Error.msg "json: text is not a []string")
      else Except.error (Error.msg "unexpected end of JSON input")
    | [] => Except.error (Error.msg "unexpected end of JSON input")
    | _ => Except.error (Error.msg "json: text is not a []string")

/-- A fetched page of package `archive`: `http://example.com/` with two
headers and the hash of the bytes `abc`. -/
def fetchedPage : ArchiveUrl :=
  { Url := "http://example.com/", LastGet := some (timeUnix 1500003600), Status := 200,
    DownloadTook := 120, Headers := some ["Content-Type", "text/html"],
    Hash := "1220ba7816bf8f01cfea414140de5dae2223b00361a396177a9cb410ff61f20015ad" }

/-! ## Later readings of the clock -/

/-- A reading `later` of `time.Now()` that is not before the reading
`earlier`: the wall clock has not gone back, and the two values either both
carry a monotonic reading, which has not gone back, or both carry none. -/
def Time.notBefore (later earlier : Time) : Bool :=
  decide (0 ≤ later.wallDiff earlier) &&
    (match earlier.mono, later.mono with
     | some a, some b => decide (a ≤ b)
     | none, none => true
     | _, _ => false)

/-- A record of `http://example.com/` read from the database: its times
carry no monotonic reading, and its last GET was at Unix second 1500003600. -/
def storedUrl : Url :=
  { fetchedUrl with Updated := timeUnix 1500003600, Created := timeUnix 1500000000 }

/-! ## Properties of the scheduler predicates -/

/-- Saturation leaves a value in the range of `Duration` alone. -/
theorem saturate_of_range (d : Int) (h₁ : minDuration ≤ d) (h₂ : d ≤ maxDuration) :
    saturate d = d := by
  unfold saturate
  rw [if_neg (by omega), if_neg (by omega)]

/-- On two values without a common monotonic reading, `Since` is the exact
wall-clock difference as long as the difference fits a `Duration`. -/
theorem Since_eq_wallDiff (now t : Time) (h : now.mono = none ∨ t.mono = none)
    (h₁ : minDuration ≤ now.wallDiff t) (h₂ : now.wallDiff t ≤ maxDuration) :
    Since now t = now.wallDiff t := by
  unfold Since Time.Sub
  rcases h with h | h
  · rw [h]
    exact saturate_of_range _ h₁ h₂
  · rw [h]
    cases now.mono <;> exact saturate_of_range _ h₁ h₂

/-- Claim C1. `ShouldEnqueueGet` returns true exactly when the record has a
URL whose string is not marked in flight and `LastGet` is unset or
`time.Since(LastGet)` exceeds `StaleDuration`; on a record with a URL it
always returns, with that truth value. With a stale duration of one hour and
no marker, a `LastGet` two hours back gives true and a set `LastGet` thirty
minutes back gives false. While the marker is set the result is false
whatever the timestamps, and with the marker removed and more than
`StaleDuration` elapsed since `LastGet` it is true. -/
theorem ShouldEnqueueGet_iff (now : Time) (StaleDuration : Int) (enqued : String → Bool)
    (urlString : URL → String) (u : Url) :
    (u.ShouldEnqueueGet now StaleDuration enqued urlString = some true ↔
      ∃ x, u.Url = some x ∧ enqued (urlString x) = false ∧
        (u.LastGet.IsZero = true ∨ Since now u.LastGet > StaleDuration)) ∧
    (∀ x, u.Url = some x →
      u.ShouldEnqueueGet now StaleDuration enqued urlString =
        some (!enqued (urlString x) &&
          (u.LastGet.IsZero || decide (Since now u.LastGet > StaleDuration)))) ∧
    (∀ x, u.Url = some x → enqued (urlString x) = false →
      Since now u.LastGet = 2 * Hour →
      u.ShouldEnqueueGet now Hour enqued urlString = some true) ∧
    (∀ x, u.Url = some x → enqued (urlString x) = false →
      u.LastGet.IsZero = false → Since now u.LastGet = 30 * Minute →
      u.ShouldEnqueueGet now Hour enqued urlString = some false) ∧
    (∀ x, u.Url = some x → enqued (urlString x) = true →
      u.ShouldEnqueueGet now StaleDuration enqued urlString = some false) ∧
    (∀ x released, u.Url = some x → released (urlString x) = false →
      Since now u.LastGet > StaleDuration →
      u.ShouldEnqueueGet now StaleDuration released urlString = some true) := by
  refine ⟨?_, ?_, ?_, ?_, ?_, ?_⟩
  · unfold Url.ShouldEnqueueGet
    cases hu : u.Url with
    | none =>
      by_cases hc : (u.LastGet.IsZero || decide (Since now u.LastGet > StaleDuration)) = true
      · simp [hc]
      · simp [hc]
    | some x =>
      by_cases hc : (u.LastGet.IsZero || decide (Since now u.LastGet > StaleDuration)) = true
      · rw [if_pos hc]
        simp only [Bool.or_eq_true, decide_eq_true_eq] at hc
        simp [hc]
      · rw [if_neg hc]
        simp only [Bool.or_eq_true, decide_eq_true_eq] at hc
        simp [hc]
  · intro x hx
    unfold Url.ShouldEnqueueGet
    rw [hx]
    by_cases hc : (u.LastGet.IsZero || decide (Since now u.LastGet > StaleDuration)) = true
    · rw [if_pos hc, hc, Bool.and_true]
    · rw [if_neg hc]
      simp only [Bool.not_eq_true] at hc
      rw [hc, Bool.and_false]
  · intro x hx he hs
    unfold Url.ShouldEnqueueGet
    rw [hx, hs]
    simp [he, Hour]
  · intro x hx he hz hs
    unfold Url.ShouldEnqueueGet
    rw [hx, hs, hz]
    simp [Hour, Minute]
  · intro x hx he
    unfold Url.ShouldEnqueueGet
    rw [hx]
    by_cases hc : (u.LastGet.IsZero || decide (Since now u.LastGet > StaleDuration)) = true
    · rw [if_pos hc]
      simp [he]
    · rw [if_neg hc]
  · intro x released hx he hs
    unfold Url.ShouldEnqueueGet
    rw [hx]
    simp [he, hs]

/-- Witness of claim C1 on the record `fetchedUrl`: two hours after its last
GET, with a stale duration of one hour and no marker, it is due. -/
theorem ShouldEnqueueGet_iff_witness :
    Since (nowAt 1500010800 5) fetchedUrl.LastGet = 2 * Hour ∧
    fetchedUrl.ShouldEnqueueGet (nowAt 1500010800 5) Hour noneEnqued plainString = some true :=
  ⟨by decide,
   (ShouldEnqueueGet_iff (nowAt 1500010800 5) Hour noneEnqued plainString fetchedUrl).2.2.1
     exampleURL rfl rfl (by decide)⟩

/-- Claim C2. `ShouldEnqueueHead` returns true exactly when the record has a
URL whose string is not marked in flight and `Created` equals `Updated`, or
`LastGet` is unset, or `time.Since(Updated)` exceeds `StaleDuration`; on a
record with a URL it always returns, with that truth value. -/
theorem ShouldEnqueueHead_iff (now : Time) (StaleDuration : Int) (enqued : String → Bool)
    (urlString : URL → String) (u : Url) :
    (u.ShouldEnqueueHead now StaleDuration enqued urlString = some true ↔
      ∃ x, u.Url = some x ∧ enqued (urlString x) = false ∧
        (u.Created = u.Updated ∨ u.LastGet.IsZero = true ∨
          Since now u.Updated > StaleDuration)) ∧
    (∀ x, u.Url = some x →
      u.ShouldEnqueueHead now StaleDuration enqued urlString =
        some (!enqued (urlString x) &&
          (decide (u.Created = u.Updated) || u.LastGet.IsZero ||
            decide (Since now u.Updated > StaleDuration)))) := by
  refine ⟨?_, ?_⟩
  · unfold Url.ShouldEnqueueHead
    cases hu : u.Url with
    | none =>
      by_cases hc : (decide (u.Created = u.Updated) || u.LastGet.IsZero
          || decide (Since now u.Updated > StaleDuration)) = true
      · simp [hc]
      · simp [hc]
    | some x =>
      by_cases hc : (decide (u.Created = u.Updated) || u.LastGet.IsZero
          || decide (Since now u.Updated > StaleDuration)) = true
      · rw [if_pos hc]
        simp only [Bool.or_eq_true, decide_eq_true_eq, or_assoc] at hc
        simp [hc]
      · rw [if_neg hc]
        simp only [Bool.or_eq_true, decide_eq_true_eq, or_assoc] at hc
        simp [hc]
  · intro x hx
    unfold Url.ShouldEnqueueHead
    rw [hx]
    by_cases hc : (decide (u.Created = u.Updated) || u.LastGet.IsZero
        || decide (Since now u.Updated > StaleDuration)) = true
    · rw [if_pos hc, hc, Bool.and_true]
    · rw [if_neg hc]
      simp only [Bool.not_eq_true] at hc
      rw [hc, Bool.and_false]

/-- Witness of claim C2 on the record `neverFetchedUrl`, whose `Created`
equals its `Updated`: it is due for a HEAD one second after its creation. -/
theorem ShouldEnqueueHead_iff_witness :
    neverFetchedUrl.ShouldEnqueueHead (nowAt 1500000001 5) Hour noneEnqued plainString
      = some true :=
  (ShouldEnqueueHead_iff (nowAt 1500000001 5) Hour noneEnqued plainString neverFetchedUrl).1.mpr
    ⟨exampleURL, rfl, rfl, Or.inl (by decide)⟩

/-! ## Properties of the URL row -/

/-- The Unix second of a `Time` survives `time.Unix` followed by `Unix`. -/
theorem timeUnix_Unix (t : Time) : (timeUnix t.Unix).Unix = t.Unix := by
  unfold timeUnix Time.Unix wrapInt64 unixToInternal
  simp only
  omega

/-- A Unix second in the range of `int64` survives `time.Unix` followed by
`Unix`. -/
theorem Unix_timeUnix (s : Int) (h₁ : -(2 ^ 63) ≤ s) (h₂ : s < 2 ^ 63) :
    (timeUnix s).Unix = s := by
  unfold timeUnix Time.Unix wrapInt64 unixToInternal
  simp only
  omega

/-- The arguments of `SQLArgs` scan back as the row of the record. -/
theorem scanArgs_SQLArgs (urlString : URL → String) (u : Url) (x : URL)
    (hx : u.Url = some x) :
    (u.SQLArgs urlString).bind scanArgs =
      some { rawurl := urlString x, created := u.Created.Unix, updated := u.Updated.Unix,
             lastGet := if u.LastGet.IsZero then 0 else u.LastGet.Unix,
             host := u.Host, status := u.Status, mime := u.ContentType,
             length := u.ContentLength, title := u.Title } := by
  unfold Url.SQLArgs
  rw [hx]
  cases u.LastGet.IsZero <;> simp [scanArgs]

/-- Round trip of a record whose `LastGet` is set: when the normalized URL is
not `nil` and `url.Parse` inverts `String` on it, the record read back equals
the inserted one field for field, timestamps compared by their Unix second. -/
theorem roundTrip_of_LastGet_set (now : Time) (NormalizeURL : Option URL → Option URL)
    (urlString : URL → String) (urlParse : String → Except Error URL) (u : Url) (x : URL)
    (hx : NormalizeURL u.Url = some x) (hp : urlParse (urlString x) = Except.ok x)
    (hz : u.LastGet.IsZero = false) :
    ∃ o r, roundTrip now NormalizeURL urlString urlParse u = some (o, r) ∧
      r.err = none ∧ r.u.sameAtSeconds o := by
  have hargs := scanArgs_SQLArgs urlString
    { u with Created := now, Updated := now, Url := some x, Host := x.Host } x rfl
  cases hs : Url.SQLArgs urlString
      { u with Created := now, Updated := now, Url := some x, Host := x.Host } with
  | none => rw [hs] at hargs; simp at hargs
  | some args =>
    rw [hs] at hargs
    simp only [Option.some_bind] at hargs
    refine ⟨{ u with Created := now, Updated := now, Url := some x, Host := x.Host },
      Url.Read urlString urlParse (rowTable args)
        { u with Created := now, Updated := now, Url := some x, Host := x.Host }, ?_, ?_, ?_⟩
    · simp only [roundTrip, Url.Insert, hx, hs, Option.map_some']
    · simp [Url.Read, rowTable, hargs, Url.UnmarshalSQL, hp]
    · simp [Url.Read, rowTable, hargs, Url.UnmarshalSQL, hp, Url.sameAtSeconds, hz,
        timeUnix_Unix]

/-- Witness of `roundTrip_of_LastGet_set` on the record `fetchedUrl`. -/
theorem roundTrip_of_LastGet_set_witness :
    ∃ o r, roundTrip (nowAt 1500007200 9) id plainString plainParse fetchedUrl = some (o, r) ∧
      r.err = none ∧ r.u.sameAtSeconds o :=
  roundTrip_of_LastGet_set (nowAt 1500007200 9) id plainString plainParse fetchedUrl
    exampleURL rfl rfl (by decide)

/-- Claim C3, evaluated on the never-fetched record `neverFetchedUrl`. The
inserted record has an unset `LastGet` (Unix second -62135596800), its row is
written with `last_get = 0`, the read succeeds, and the record read back has
a set `LastGet` of Unix second 0: the two records differ at one-second
resolution. -/
theorem roundTrip_neverFetched :
    (roundTrip (nowAt 1500000000 7) id plainString plainParse neverFetchedUrl).map
      (fun p => (p.1.LastGet.IsZero, p.1.LastGet.Unix, p.2.err, p.2.u.LastGet.IsZero,
        p.2.u.LastGet.Unix, decide (p.2.u.sameAtSeconds p.1)))
      = some (true, -62135596800, none, false, 0, false) := by
  decide

/-- A row whose `last_get` column is 0 is read as a record whose `LastGet` is
`time.Unix(0, 0)`, which is not the zero `time.Time`. -/
theorem UnmarshalSQL_lastGet_zero (urlParse : String → Except Error URL) (u : Url)
    (r : UrlRow) (x : URL) (hp : urlParse r.rawurl = Except.ok x) (h0 : r.lastGet = 0) :
    (u.UnmarshalSQL urlParse (Except.ok r)).err = none ∧
    (u.UnmarshalSQL urlParse (Except.ok r)).u.LastGet = timeUnix 0 ∧
    (u.UnmarshalSQL urlParse (Except.ok r)).u.LastGet.IsZero = false := by
  simp only [Url.UnmarshalSQL, hp, h0]
  refine ⟨trivial, trivial, ?_⟩
  decide

/-- Witness of `UnmarshalSQL_lastGet_zero` on the row `neverFetchedRow`. -/
theorem UnmarshalSQL_lastGet_zero_witness :
    (fetchedUrl.UnmarshalSQL plainParse (Except.ok neverFetchedRow)).err = none ∧
    (fetchedUrl.UnmarshalSQL plainParse (Except.ok neverFetchedRow)).u.LastGet = timeUnix 0 ∧
    (fetchedUrl.UnmarshalSQL plainParse (Except.ok neverFetchedRow)).u.LastGet.IsZero = false :=
  UnmarshalSQL_lastGet_zero plainParse fetchedUrl neverFetchedRow exampleURL rfl rfl

/-- Claim C4, evaluated on the row `neverFetchedRow`, whose `last_get` column
is 0: `UnmarshalSQL` succeeds and the record it yields has `LastGet` at Unix
second 0, for which `IsZero` is false. -/
theorem UnmarshalSQL_zero_epoch_not_IsZero :
    (neverFetchedRow.lastGet,
     (neverFetchedUrl.UnmarshalSQL plainParse (Except.ok neverFetchedRow)).err,
     (neverFetchedUrl.UnmarshalSQL plainParse (Except.ok neverFetchedRow)).u.LastGet.Unix,
     (neverFetchedUrl.UnmarshalSQL plainParse (Except.ok neverFetchedRow)).u.LastGet.IsZero)
      = (0, none, 0, false) := by
  decide

/-! ## Clamping of `Status` and `ContentLength` -/

/-- Claim C5. When the normalized URL is not `nil`, `Update` returns, and
leaves the record and the written row with `Status = max Status (-1)` and
`ContentLength = max ContentLength (-1)`; a value that is at least -1 is
written unaltered. -/
theorem Update_clamps (now : Time) (NormalizeURL : Option URL → Option URL)
    (urlString : URL → String) (dbExec : String → List SQLValue → Option Error)
    (u : Url) (x : URL) (hx : NormalizeURL u.Url = some x) :
    ∃ o, u.Update now NormalizeURL urlString dbExec = some o ∧
      o.query = updateQuery ∧
      o.u.Status = max u.Status (-1) ∧
      o.u.ContentLength = max u.ContentLength (-1) ∧
      o.args[5]? = some (SQLValue.integer (max u.Status (-1))) ∧
      o.args[7]? = some (SQLValue.integer (max u.ContentLength (-1))) ∧
      (-1 ≤ u.Status →
        o.u.Status = u.Status ∧ o.args[5]? = some (SQLValue.integer u.Status)) ∧
      (-1 ≤ u.ContentLength →
        o.u.ContentLength = u.ContentLength ∧
        o.args[7]? = some (SQLValue.integer u.ContentLength)) := by
  unfold Url.Update Url.SQLArgs
  by_cases hl : u.ContentLength < -1 <;> by_cases hs : u.Status < -1
  · simp [hx, hl, hs, max_eq_right (le_of_lt hl), max_eq_right (le_of_lt hs)]
  · simp [hx, hl, hs, max_eq_right (le_of_lt hl), max_eq_left (not_lt.mp hs)]
  · simp [hx, hl, hs, max_eq_left (not_lt.mp hl), max_eq_right (le_of_lt hs)]
  · simp [hx, hl, hs, max_eq_left (not_lt.mp hl), max_eq_left (not_lt.mp hs)]

/-- Witness of claim C5 on the record `belowRangeUrl`, whose `Status` is -5
and whose `ContentLength` is -7. -/
theorem Update_clamps_witness :
    ∃ o, belowRangeUrl.Update (nowAt 1500000000 3) id plainString execOk = some o ∧
      o.query = updateQuery ∧
      o.u.Status = max (-5) (-1) ∧
      o.u.ContentLength = max (-7) (-1) ∧
      o.args[5]? = some (SQLValue.integer (max (-5) (-1))) ∧
      o.args[7]? = some (SQLValue.integer (max (-7) (-1))) ∧
      (-1 ≤ belowRangeUrl.Status →
        o.u.Status = belowRangeUrl.Status ∧
        o.args[5]? = some (SQLValue.integer belowRangeUrl.Status)) ∧
      (-1 ≤ belowRangeUrl.ContentLength →
        o.u.ContentLength = belowRangeUrl.ContentLength ∧
        o.args[7]? = some (SQLValue.integer belowRangeUrl.ContentLength)) :=
  Update_clamps (nowAt 1500000000 3) id plainString execOk belowRangeUrl exampleURL rfl

/-- Every row that `Update` writes has a status and a content length of at
least -1. -/
theorem Update_row_ge (now : Time) (NormalizeURL : Option URL → Option URL)
    (urlString : URL → String) (dbExec : String → List SQLValue → Option Error)
    (u : Url) (o : ExecOutcome) (h : u.Update now NormalizeURL urlString dbExec = some o) :
    ∃ st len, o.args[5]? = some (SQLValue.integer st) ∧
      o.args[7]? = some (SQLValue.integer len) ∧ -1 ≤ st ∧ -1 ≤ len := by
  cases hx : NormalizeURL u.Url with
  | none =>
    unfold Url.Update Url.SQLArgs at h
    by_cases hl : u.ContentLength < -1 <;> by_cases hs : u.Status < -1 <;>
      simp [hx, hl, hs] at h
  | some x =>
    obtain ⟨o', ho', _, _, _, h5, h7, _, _⟩ :=
      Update_clamps now NormalizeURL urlString dbExec u x hx
    rw [h] at ho'
    cases ho'
    exact ⟨_, _, h5, h7, le_max_right _ _, le_max_right _ _⟩

/-- Witness of `Update_row_ge` on the record `belowRangeUrl`. -/
theorem Update_row_ge_witness :
    ∃ st len,
      [SQLValue.text "http://example.com/", SQLValue.integer (-62135596800),
        SQLValue.integer 1500000000, SQLValue.integer 0, SQLValue.text "",
        SQLValue.integer (-1), SQLValue.text "", SQLValue.integer (-1),
        SQLValue.text ""][5]? = some (SQLValue.integer st) ∧
      [SQLValue.text "http://example.com/", SQLValue.integer (-62135596800),
        SQLValue.integer 1500000000, SQLValue.integer 0, SQLValue.text "",
        SQLValue.integer (-1), SQLValue.text "", SQLValue.integer (-1),
        SQLValue.text ""][7]? = some (SQLValue.integer len) ∧ -1 ≤ st ∧ -1 ≤ len :=
  Update_row_ge (nowAt 1500000000 3) id plainString execOk belowRangeUrl
    { u := { belowRangeUrl with Updated := nowAt 1500000000 3, Status := -1,
                                ContentLength := -1 },
      query := updateQuery,
      args := [SQLValue.text "http://example.com/", SQLValue.integer (-62135596800),
        SQLValue.integer 1500000000, SQLValue.integer 0, SQLValue.text "",
        SQLValue.integer (-1), SQLValue.text "", SQLValue.integer (-1),
        SQLValue.text ""],
      err := none }
    (by decide)

/-- Claim C6, evaluated on the record `belowRangeUrl`, whose `Status` is -5
and whose `ContentLength` is -7: `Insert` sends a row with status -5 and
content length -7, and leaves those values in the record. -/
theorem Insert_writes_below_range :
    (belowRangeUrl.Insert (nowAt 1500000000 3) id plainString execOk).map
      (fun o => (o.query, o.args, o.u.Status, o.u.ContentLength, o.err))
      = some (insertQuery,
          [SQLValue.text "http://example.com/", SQLValue.integer 1500000000,
            SQLValue.integer 1500000000, SQLValue.integer 0, SQLValue.text "example.com",
            SQLValue.integer (-5), SQLValue.text "", SQLValue.integer (-7),
            SQLValue.text ""],
          -5, -7, none) := by
  decide

/-! ## Blob keys -/

/-- A SHA-256 digest has thirty-two bytes. -/
theorem sha256Sum_length (data : List UInt8) : (sha256Sum data).length = 32 := by
  simp [sha256Sum, be32]

/-- The hexadecimal text of a byte sequence has two characters per byte. -/
theorem EncodeToString_length (src : List UInt8) :
    (EncodeToString src).length = 2 * src.length := by
  unfold EncodeToString
  induction src with
  | nil => rfl
  | cons v rest ih =>
    simp only [List.flatMap_cons, String.length, List.length_append, List.length_cons,
      List.length_nil] at ih ⊢
    omega

/-- The hexadecimal text of a sequence is the text of its first byte followed
by the text of the rest. -/
theorem EncodeToString_cons (v : UInt8) (rest : List UInt8) :
    EncodeToString (v :: rest) = EncodeToString [v] ++ EncodeToString rest := by
  unfold EncodeToString
  simp only [List.flatMap_cons, List.flatMap_nil, List.append_nil]
  rfl

/-- Every character of a hexadecimal text is one of the sixteen digits. -/
theorem EncodeToString_digits (src : List UInt8) :
    ∀ c ∈ (EncodeToString src).toList, c ∈ hextable := by
  unfold EncodeToString
  intro c hc
  simp only [String.toList, List.mem_flatMap, List.mem_cons, List.mem_singleton,
    List.not_mem_nil, or_false] at hc
  obtain ⟨v, _, hv⟩ := hc
  have h4 : v.toNat >>> 4 < 16 := by
    have := v.toNat_lt
    rw [Nat.shiftRight_eq_div_pow]
    omega
  have h15 : v.toNat &&& 15 < 16 := by
    have : v.toNat &&& 15 ≤ 15 := Nat.and_le_right
    omega
  have key : ∀ n, n < 16 → hextable.getD n '0' ∈ hextable := by
    intro n hn
    interval_cases n <;> decide
  rcases hv with hv | hv
  · rw [hv]; exact key _ h4
  · rw [hv]; exact key _ h15

/-- The SHA-256 digest of the bytes `abc`, in hexadecimal. -/
theorem sha256Sum_abc :
    EncodeToString (sha256Sum [97, 98, 99]) =
      "ba7816bf8f01cfea414140de5dae2223b00361a396177a9cb410ff61f20015ad" := by
  rfl

/-- The SHA-256 digest of the empty byte sequence, in hexadecimal. -/
theorem sha256Sum_empty :
    EncodeToString (sha256Sum []) =
      "e3b0c44298fc1c149afbf4c8996fb92427ae41e4649b934ca495991b7852b855" := by
  rfl

/-- The first and the last round constant and the first and the last word
of the initial hash value, as FIPS 180-4 lists them. -/
theorem sha256_constants :
    sha256K.length = 64 ∧ sha256K.head? = some 0x428a2f98 ∧
    sha256K.getLast? = some 0xc67178f2 ∧
    sha256Init.a = 0x6a09e667 ∧ sha256Init.h = 0x5be0cd19 := by
  decide

/-- The multihash of a 32-byte digest is the bytes 0x12 and 0x20 followed by
the digest. -/
theorem EncodeNameSha2_256_eq (buf : List UInt8) (h : buf.length = 32) :
    EncodeNameSha2_256 buf = Except.ok (UInt8.ofNat 0x12 :: UInt8.ofNat 32 :: buf) := by
  unfold EncodeNameSha2_256
  rw [h, if_neg (by decide)]

/-- The hexadecimal text of a multihash of SHA-256 starts with `1220`. -/
theorem EncodeToString_multihash (buf : List UInt8) :
    EncodeToString (UInt8.ofNat 0x12 :: UInt8.ofNat 32 :: buf) = "1220" ++ EncodeToString buf := by
  rw [EncodeToString_cons, EncodeToString_cons (UInt8.ofNat 32)]
  generalize EncodeToString buf = t
  rfl

/-- The outcome of `calcHash` in terms of the multihash of the digest. -/
theorem calcHash_of_multihash (f : File) (mhBuf : List UInt8)
    (h : EncodeNameSha2_256 (sha256Sum (f.Data.getD [])) = Except.ok mhBuf) :
    f.calcHash = ({ f with Hash := EncodeToString mhBuf }, none) := by
  unfold File.calcHash
  rw [h]

/-- The hash computed for a file is the text `1220` followed by the
hexadecimal text of the SHA-256 digest of its data. -/
theorem calcHash_eq (f : File) :
    f.calcHash =
      ({ f with Hash := "1220" ++ EncodeToString (sha256Sum (f.Data.getD [])) }, none) := by
  rw [calcHash_of_multihash f _ (EncodeNameSha2_256_eq _ (sha256Sum_length _)),
    EncodeToString_multihash]

/-- Dropping four characters from `1220` followed by a text gives the text. -/
theorem sliceFrom_1220 (t : String) : sliceFrom ("1220" ++ t) 4 = some t := by
  unfold sliceFrom
  have hl : ("1220" ++ t).length = 4 + t.length := by
    rw [String.length_append]; rfl
  rw [if_neg (by omega)]
  rfl

/-- The outcome of `Filename` on a file with non-nil data and an empty
hash. -/
theorem Filename_of_empty_hash (f : File) (data : List UInt8) (hd : f.Data = some data)
    (hh : f.Hash = "") :
    f.Filename =
      some ({ f with Hash := "1220" ++ EncodeToString (sha256Sum data) },
        Except.ok (EncodeToString (sha256Sum data))) := by
  unfold File.Filename
  simp only [hd, hh, Option.isNone_some, Bool.false_and, Bool.false_eq_true, if_false,
    beq_self_eq_true, if_true]
  rw [calcHash_eq]
  simp only [hd, Option.getD_some, sliceFrom_1220, Option.map_some']

/-- Witness of `Filename_of_empty_hash` on the file `abcFile`. -/
theorem Filename_of_empty_hash_witness :
    abcFile.Filename =
      some ({ abcFile with Hash := "1220" ++ EncodeToString (sha256Sum [97, 98, 99]) },
        Except.ok (EncodeToString (sha256Sum [97, 98, 99]))) :=
  Filename_of_empty_hash abcFile [97, 98, 99] rfl rfl

/-- Claim C7. For a file with non-nil data and an empty hash, `Filename`
returns without error the hexadecimal SHA-256 digest of the data, of 64
hexadecimal digits, and leaves `Hash` equal to the four characters `1220`
followed by that digest; the name is `Hash` without its first four
characters. -/
theorem Filename_of_data (f : File) (data : List UInt8) (hd : f.Data = some data)
    (hh : f.Hash = "") :
    f.Filename =
      some ({ f with Hash := "1220" ++ EncodeToString (sha256Sum data) },
        Except.ok (EncodeToString (sha256Sum data))) ∧
    (EncodeToString (sha256Sum data)).length = 64 ∧
    (∀ c ∈ (EncodeToString (sha256Sum data)).toList, c ∈ hextable) ∧
    ("1220" ++ EncodeToString (sha256Sum data)).length = 4 + 64 ∧
    sliceFrom ("1220" ++ EncodeToString (sha256Sum data)) 4 =
      some (EncodeToString (sha256Sum data)) := by
  have hlen : (EncodeToString (sha256Sum data)).length = 64 := by
    rw [EncodeToString_length, sha256Sum_length]
  refine ⟨Filename_of_empty_hash f data hd hh, hlen, EncodeToString_digits _, ?_,
    sliceFrom_1220 _⟩
  rw [String.length_append, hlen]; rfl

/-- Witness of claim C7 on the file `abcFile`, whose data are the bytes
`abc`. -/
theorem Filename_of_data_witness :
    abcFile.Filename =
      some ({ abcFile with
              Hash := "1220" ++ EncodeToString (sha256Sum [97, 98, 99]) },
        Except.ok (EncodeToString (sha256Sum [97, 98, 99]))) ∧
    (EncodeToString (sha256Sum [97, 98, 99])).length = 64 ∧
    (∀ c ∈ (EncodeToString (sha256Sum [97, 98, 99])).toList, c ∈ hextable) ∧
    ("1220" ++ EncodeToString (sha256Sum [97, 98, 99])).length = 4 + 64 ∧
    sliceFrom ("1220" ++ EncodeToString (sha256Sum [97, 98, 99])) 4 =
      some (EncodeToString (sha256Sum [97, 98, 99])) :=
  Filename_of_data abcFile [97, 98, 99] rfl rfl

/-- For a file whose hash is set and has at least four characters,
`Filename` leaves the file alone and returns the hash without its first four
characters. -/
theorem Filename_of_hash (f : File) (h : 4 ≤ f.Hash.length) :
    f.Filename = some (f, Except.ok (String.mk (f.Hash.toList.drop 4))) := by
  have hne : (f.Hash == "") = false := by
    rw [beq_eq_false_iff_ne]
    intro he
    rw [he] at h
    exact absurd h (by decide)
  unfold File.Filename sliceFrom
  simp only [hne, Bool.and_false, Bool.false_eq_true, if_false]
  rw [if_neg (by omega)]
  rfl

/-- Witness of `Filename_of_hash` on a file without data whose hash is the
text `1220abcd`. -/
theorem Filename_of_hash_witness :
    File.Filename { Url := "", Data := none, Hash := "1220abcd" } =
      some ({ Url := "", Data := none, Hash := "1220abcd" },
        Except.ok (String.mk ("1220abcd".toList.drop 4))) :=
  Filename_of_hash { Url := "", Data := none, Hash := "1220abcd" } (by decide)

/-- The name of the file `abcFile`, evaluated. -/
theorem Filename_abcFile :
    abcFile.Filename =
      some ({ abcFile with
              Hash := "1220ba7816bf8f01cfea414140de5dae2223b00361a396177a9cb410ff61f20015ad" },
        Except.ok "ba7816bf8f01cfea414140de5dae2223b00361a396177a9cb410ff61f20015ad") := by
  rw [Filename_of_empty_hash abcFile [97, 98, 99] rfl rfl, sha256Sum_abc]
  rfl

/-! ## Deduplicated storage -/

/-- Claim C8. For a file with non-empty data whose key `Filename` derives:
when the existence check at `AwsS3BucketPath/filename` succeeds, `PutS3`
sends the check alone, leaves the store as it was and returns nil; when the
check fails, it sends the check and then one put of the data at that key, and
returns the result of that put, the store being the one the put leaves. -/
theorem PutS3_only_if_absent {σ : Type} (svc : S3 σ) (cfg : AwsConfig) (s : σ) (f f1 : File)
    (data : List UInt8) (name : String) (hd : f.Data = some data) (hne : data ≠ [])
    (hf : f.Filename = some (f1, Except.ok name)) :
    (svc.HeadObject s cfg.AwsS3BucketName (cfg.AwsS3BucketPath ++ "/" ++ name) = none →
      ∃ o, f.PutS3 svc cfg s = some o ∧ o.f = f1 ∧ o.store = s ∧ o.err = none ∧
        o.requests =
          [S3Request.HeadObject cfg.AwsS3BucketName (cfg.AwsS3BucketPath ++ "/" ++ name)]) ∧
    (∀ e, svc.HeadObject s cfg.AwsS3BucketName (cfg.AwsS3BucketPath ++ "/" ++ name) = some e →
      ∃ o, f.PutS3 svc cfg s = some o ∧ o.f = f1 ∧
        o.store = (svc.PutObject s BucketCannedACLPublicRead cfg.AwsS3BucketName
          (cfg.AwsS3BucketPath ++ "/" ++ name) data).1 ∧
        o.err = (svc.PutObject s BucketCannedACLPublicRead cfg.AwsS3BucketName
          (cfg.AwsS3BucketPath ++ "/" ++ name) data).2 ∧
        o.requests =
          [S3Request.HeadObject cfg.AwsS3BucketName (cfg.AwsS3BucketPath ++ "/" ++ name),
           S3Request.PutObject BucketCannedACLPublicRead cfg.AwsS3BucketName
             (cfg.AwsS3BucketPath ++ "/" ++ name) data]) := by
  have hlen : ¬ data.length = 0 := by
    intro h0
    exact hne (List.length_eq_zero.mp h0)
  refine ⟨?_, ?_⟩
  · intro hhead
    refine ⟨{ f := f1, store := s,
              requests := [S3Request.HeadObject cfg.AwsS3BucketName
                (cfg.AwsS3BucketPath ++ "/" ++ name)],
              err := none }, ?_, rfl, rfl, rfl, rfl⟩
    unfold File.PutS3
    simp only [hd, hlen, if_false, hf, File.s3Path, hhead]
  · intro e hhead
    refine ⟨{ f := f1,
              store := (svc.PutObject s BucketCannedACLPublicRead cfg.AwsS3BucketName
                (cfg.AwsS3BucketPath ++ "/" ++ name) data).1,
              requests := [S3Request.HeadObject cfg.AwsS3BucketName
                  (cfg.AwsS3BucketPath ++ "/" ++ name),
                S3Request.PutObject BucketCannedACLPublicRead cfg.AwsS3BucketName
                  (cfg.AwsS3BucketPath ++ "/" ++ name) data],
              err := (svc.PutObject s BucketCannedACLPublicRead cfg.AwsS3BucketName
                (cfg.AwsS3BucketPath ++ "/" ++ name) data).2 }, ?_, rfl, rfl, rfl, rfl⟩
    unfold File.PutS3
    simp only [hd, hlen, if_false, hf, File.s3Path, hhead]

/-- Witness of claim C8 on the file `abcFile`: on a blob store that holds
its bytes under its key only the check is sent, and on an empty blob store
the check is followed by one put. -/
theorem PutS3_only_if_absent_witness :
    (∃ o, abcFile.PutS3 blobS3 exampleConfig
        [(("bucket", "urls/ba7816bf8f01cfea414140de5dae2223b00361a396177a9cb410ff61f20015ad"),
          [97, 98, 99])] = some o ∧
      o.f = { abcFile with
        Hash := "1220ba7816bf8f01cfea414140de5dae2223b00361a396177a9cb410ff61f20015ad" } ∧
      o.store =
        [(("bucket", "urls/ba7816bf8f01cfea414140de5dae2223b00361a396177a9cb410ff61f20015ad"),
          [97, 98, 99])] ∧
      o.err = none ∧
      o.requests =
        [S3Request.HeadObject exampleConfig.AwsS3BucketName
          (exampleConfig.AwsS3BucketPath ++ "/" ++
            "ba7816bf8f01cfea414140de5dae2223b00361a396177a9cb410ff61f20015ad")]) ∧
    (∃ o, abcFile.PutS3 blobS3 exampleConfig [] = some o ∧
      o.f = { abcFile with
        Hash := "1220ba7816bf8f01cfea414140de5dae2223b00361a396177a9cb410ff61f20015ad" } ∧
      o.store = (blobS3.PutObject [] BucketCannedACLPublicRead exampleConfig.AwsS3BucketName
        (exampleConfig.AwsS3BucketPath ++ "/" ++
          "ba7816bf8f01cfea414140de5dae2223b00361a396177a9cb410ff61f20015ad")
        [97, 98, 99]).1 ∧
      o.err = (blobS3.PutObject [] BucketCannedACLPublicRead exampleConfig.AwsS3BucketName
        (exampleConfig.AwsS3BucketPath ++ "/" ++
          "ba7816bf8f01cfea414140de5dae2223b00361a396177a9cb410ff61f20015ad")
        [97, 98, 99]).2 ∧
      o.requests =
        [S3Request.HeadObject exampleConfig.AwsS3BucketName
          (exampleConfig.AwsS3BucketPath ++ "/" ++
            "ba7816bf8f01cfea414140de5dae2223b00361a396177a9cb410ff61f20015ad"),
         S3Request.PutObject BucketCannedACLPublicRead exampleConfig.AwsS3BucketName
           (exampleConfig.AwsS3BucketPath ++ "/" ++
             "ba7816bf8f01cfea414140de5dae2223b00361a396177a9cb410ff61f20015ad")
           [97, 98, 99]]) :=
  ⟨(PutS3_only_if_absent blobS3 exampleConfig
      [(("bucket", "urls/ba7816bf8f01cfea414140de5dae2223b00361a396177a9cb410ff61f20015ad"),
        [97, 98, 99])]
      abcFile
      { abcFile with
        Hash := "1220ba7816bf8f01cfea414140de5dae2223b00361a396177a9cb410ff61f20015ad" }
      [97, 98, 99] "ba7816bf8f01cfea414140de5dae2223b00361a396177a9cb410ff61f20015ad"
      rfl (by decide) Filename_abcFile).1 (by decide),
   (PutS3_only_if_absent blobS3 exampleConfig [] abcFile
      { abcFile with
        Hash := "1220ba7816bf8f01cfea414140de5dae2223b00361a396177a9cb410ff61f20015ad" }
      [97, 98, 99] "ba7816bf8f01cfea414140de5dae2223b00361a396177a9cb410ff61f20015ad"
      rfl (by decide) Filename_abcFile).2 (Error.msg "NotFound") (by decide)⟩

/-- For a file whose hash is `1220` followed by a text, `Filename` leaves the
file alone and returns the text. -/
theorem Filename_of_1220 (f : File) (t : String) (h : f.Hash = "1220" ++ t) :
    f.Filename = some (f, Except.ok t) := by
  have hl : f.Hash.length = 4 + t.length := by
    rw [h, String.length_append]; rfl
  rw [Filename_of_hash f (by omega), h]
  rfl

/-- Witness of `Filename_of_1220` on a file without data whose hash is the
text `1220abcd`. -/
theorem Filename_of_1220_witness :
    File.Filename { Url := "", Data := none, Hash := "1220abcd" } =
      some ({ Url := "", Data := none, Hash := "1220abcd" }, Except.ok "abcd") :=
  Filename_of_1220 { Url := "", Data := none, Hash := "1220abcd" } "abcd" rfl

/-- The file that `NewFileFromRes` makes of a body that was read. -/
theorem NewFileFromRes_ok (url : String) (data : List UInt8) :
    NewFileFromRes url (Except.ok data) =
      Except.ok { Url := url, Data := some data,
                  Hash := "1220" ++ EncodeToString (sha256Sum data) } := by
  unfold NewFileFromRes
  simp only [calcHash_eq, Option.getD_some]

/-- A store without an object under a key loses nothing when the objects
under that key are removed. -/
theorem Blobs.filter_ne_of_entries_nil (s : Blobs) (bucket key : String)
    (h : s.entries bucket key = []) :
    s.filter (fun o => o.1 ≠ (bucket, key)) = s := by
  unfold Blobs.entries at h
  rw [List.map_eq_nil_iff, List.filter_eq_nil_iff] at h
  rw [List.filter_eq_self]
  intro o ho
  have := h o ho
  simpa using this

/-- Witness of `Blobs.filter_ne_of_entries_nil` on the empty store. -/
theorem Blobs.filter_ne_of_entries_nil_witness :
    List.filter (fun o => o.1 ≠ ("bucket", "key")) ([] : Blobs) = [] :=
  Blobs.filter_ne_of_entries_nil [] "bucket" "key" rfl

/-- Claim C9. Two files made by `NewFileFromRes` from the same non-empty
bytes, under any two URLs, hold those bytes and carry the same hash: the 68
characters `1220` followed by the hexadecimal SHA-256 digest of the bytes,
whose last 64 characters are the name that `Filename` gives for both files.
On a blob store without an object at the key made of that name, `PutS3` of
the first file sends the check and one put of the bytes at the key, `PutS3`
of the second file sends the check alone and leaves the store as it is, so
that the store holds exactly one object at the key; a repeated `PutS3` sends
the check alone and leaves the store unchanged as well. -/
theorem PutS3_dedup (cfg : AwsConfig) (s0 : Blobs) (url1 url2 : String) (data : List UInt8)
    (hne : data ≠ [])
    (habs : s0.entries cfg.AwsS3BucketName
      (cfg.AwsS3BucketPath ++ "/" ++ EncodeToString (sha256Sum data)) = []) :
    ∃ f1 f2 o1 o2 o3,
      NewFileFromRes url1 (Except.ok data) = Except.ok f1 ∧
      NewFileFromRes url2 (Except.ok data) = Except.ok f2 ∧
      f1.Url = url1 ∧ f2.Url = url2 ∧ f1.Data = some data ∧ f2.Data = some data ∧
      f1.Hash = "1220" ++ EncodeToString (sha256Sum data) ∧ f1.Hash.length = 68 ∧
      f1.Hash = f2.Hash ∧
      f1.Filename = some (f1, Except.ok (EncodeToString (sha256Sum data))) ∧
      f2.Filename = some (f2, Except.ok (EncodeToString (sha256Sum data))) ∧
      sliceFrom f1.Hash 4 = some (EncodeToString (sha256Sum data)) ∧
      f1.PutS3 blobS3 cfg s0 = some o1 ∧ o1.err = none ∧
      o1.requests = [S3Request.HeadObject cfg.AwsS3BucketName
          (File.s3Path cfg (EncodeToString (sha256Sum data))),
        S3Request.PutObject BucketCannedACLPublicRead cfg.AwsS3BucketName
          (File.s3Path cfg (EncodeToString (sha256Sum data))) data] ∧
      f2.PutS3 blobS3 cfg o1.store = some o2 ∧ o2.err = none ∧
      o2.requests = [S3Request.HeadObject cfg.AwsS3BucketName
        (cfg.AwsS3BucketPath ++ "/" ++ EncodeToString (sha256Sum data))] ∧
      o2.store = o1.store ∧
      o2.store = ((cfg.AwsS3BucketName,
        cfg.AwsS3BucketPath ++ "/" ++ EncodeToString (sha256Sum data)), data) :: s0 ∧
      o2.store.entries cfg.AwsS3BucketName
        (cfg.AwsS3BucketPath ++ "/" ++ EncodeToString (sha256Sum data)) = [data] ∧
      f1.PutS3 blobS3 cfg o2.store = some o3 ∧ o3.err = none ∧ o3.store = o2.store ∧
      o3.requests = [S3Request.HeadObject cfg.AwsS3BucketName
        (cfg.AwsS3BucketPath ++ "/" ++ EncodeToString (sha256Sum data))] := by
  have hlen : ¬ data.length = 0 := by
    intro h0
    exact hne (List.length_eq_zero.mp h0)
  have hent : Blobs.entries (((cfg.AwsS3BucketName,
      cfg.AwsS3BucketPath ++ "/" ++ EncodeToString (sha256Sum data)), data) :: s0)
      cfg.AwsS3BucketName (cfg.AwsS3BucketPath ++ "/" ++ EncodeToString (sha256Sum data))
      = [data] := by
    unfold Blobs.entries at habs ⊢
    rw [List.filter_cons_of_pos (by simp), List.map_cons, habs]
  have hput : ∀ url,
      File.PutS3 blobS3 cfg s0
        { Url := url, Data := some data, Hash := "1220" ++ EncodeToString (sha256Sum data) } =
      some { f := { Url := url, Data := some data,
                    Hash := "1220" ++ EncodeToString (sha256Sum data) },
             store := ((cfg.AwsS3BucketName,
               cfg.AwsS3BucketPath ++ "/" ++ EncodeToString (sha256Sum data)), data) :: s0,
             requests := [S3Request.HeadObject cfg.AwsS3BucketName
                 (cfg.AwsS3BucketPath ++ "/" ++ EncodeToString (sha256Sum data)),
               S3Request.PutObject BucketCannedACLPublicRead cfg.AwsS3BucketName
                 (cfg.AwsS3BucketPath ++ "/" ++ EncodeToString (sha256Sum data)) data],
             err := none } := by
    intro url
    have hname := Filename_of_1220
      { Url := url, Data := some data, Hash := "1220" ++ EncodeToString (sha256Sum data) }
      (EncodeToString (sha256Sum data)) rfl
    unfold File.PutS3
    simp only [hlen, if_false, hname, File.s3Path, blobS3, habs, if_true,
      Blobs.filter_ne_of_entries_nil s0 _ _ habs]
  have hskip : ∀ url,
      File.PutS3 blobS3 cfg (((cfg.AwsS3BucketName,
          cfg.AwsS3BucketPath ++ "/" ++ EncodeToString (sha256Sum data)), data) :: s0)
        { Url := url, Data := some data, Hash := "1220" ++ EncodeToString (sha256Sum data) } =
      some { f := { Url := url, Data := some data,
                    Hash := "1220" ++ EncodeToString (sha256Sum data) },
             store := ((cfg.AwsS3BucketName,
               cfg.AwsS3BucketPath ++ "/" ++ EncodeToString (sha256Sum data)), data) :: s0,
             requests := [S3Request.HeadObject cfg.AwsS3BucketName
                 (cfg.AwsS3BucketPath ++ "/" ++ EncodeToString (sha256Sum data))],
             err := none } := by
    intro url
    have hname := Filename_of_1220
      { Url := url, Data := some data, Hash := "1220" ++ EncodeToString (sha256Sum data) }
      (EncodeToString (sha256Sum data)) rfl
    unfold File.PutS3
    simp only [hlen, if_false, hname, File.s3Path, blobS3, hent]
    rfl
  have hhash : ("1220" ++ EncodeToString (sha256Sum data)).length = 68 := by
    rw [String.length_append, EncodeToString_length, sha256Sum_length]
    rfl
  have hname : ∀ url,
      File.Filename
        { Url := url, Data := some data, Hash := "1220" ++ EncodeToString (sha256Sum data) } =
      some ({ Url := url, Data := some data,
              Hash := "1220" ++ EncodeToString (sha256Sum data) },
        Except.ok (EncodeToString (sha256Sum data))) :=
    fun url => Filename_of_1220 _ _ rfl
  exact ⟨_, _, _, _, _, NewFileFromRes_ok url1 data, NewFileFromRes_ok url2 data, rfl, rfl,
    rfl, rfl, rfl, hhash, rfl, hname url1, hname url2, sliceFrom_1220 _,
    hput url1, rfl, rfl, hskip url2, rfl, rfl, rfl, rfl, hent, hskip url1, rfl, rfl, rfl⟩

/-- Witness of claim C9 on the bytes `abc`, fetched from two addresses, and
an empty blob store. -/
theorem PutS3_dedup_witness :
    ∃ f1 f2 o1 o2 o3,
      NewFileFromRes "http://a.example/x" (Except.ok [97, 98, 99]) = Except.ok f1 ∧
      NewFileFromRes "http://b.example/y" (Except.ok [97, 98, 99]) = Except.ok f2 ∧
      f1.Url = "http://a.example/x" ∧ f2.Url = "http://b.example/y" ∧
      f1.Data = some [97, 98, 99] ∧ f2.Data = some [97, 98, 99] ∧
      f1.Hash = "1220" ++ EncodeToString (sha256Sum [97, 98, 99]) ∧ f1.Hash.length = 68 ∧
      f1.Hash = f2.Hash ∧
      f1.Filename = some (f1, Except.ok (EncodeToString (sha256Sum [97, 98, 99]))) ∧
      f2.Filename = some (f2, Except.ok (EncodeToString (sha256Sum [97, 98, 99]))) ∧
      sliceFrom f1.Hash 4 = some (EncodeToString (sha256Sum [97, 98, 99])) ∧
      f1.PutS3 blobS3 exampleConfig [] = some o1 ∧ o1.err = none ∧
      o1.requests = [S3Request.HeadObject exampleConfig.AwsS3BucketName
          (File.s3Path exampleConfig (EncodeToString (sha256Sum [97, 98, 99]))),
        S3Request.PutObject BucketCannedACLPublicRead exampleConfig.AwsS3BucketName
          (File.s3Path exampleConfig (EncodeToString (sha256Sum [97, 98, 99])))
          [97, 98, 99]] ∧
      f2.PutS3 blobS3 exampleConfig o1.store = some o2 ∧ o2.err = none ∧
      o2.requests = [S3Request.HeadObject exampleConfig.AwsS3BucketName
        (exampleConfig.AwsS3BucketPath ++ "/" ++ EncodeToString (sha256Sum [97, 98, 99]))] ∧
      o2.store = o1.store ∧
      o2.store = ((exampleConfig.AwsS3BucketName,
        exampleConfig.AwsS3BucketPath ++ "/" ++ EncodeToString (sha256Sum [97, 98, 99])),
          [97, 98, 99]) :: [] ∧
      o2.store.entries exampleConfig.AwsS3BucketName
        (exampleConfig.AwsS3BucketPath ++ "/" ++ EncodeToString (sha256Sum [97, 98, 99]))
          = [[97, 98, 99]] ∧
      f1.PutS3 blobS3 exampleConfig o2.store = some o3 ∧ o3.err = none ∧
      o3.store = o2.store ∧
      o3.requests = [S3Request.HeadObject exampleConfig.AwsS3BucketName
        (exampleConfig.AwsS3BucketPath ++ "/" ++ EncodeToString (sha256Sum [97, 98, 99]))] :=
  PutS3_dedup exampleConfig [] "http://a.example/x" "http://b.example/y" [97, 98, 99]
    (by decide) rfl

/-! ## Deletion of blobs -/

/-- Whatever the service answers, `Delete` returns nil once the key of the
file is derived. -/
theorem Delete_returns_nil {σ : Type} (svc : S3 σ) (cfg : AwsConfig) (s : σ) (f f1 : File)
    (name : String) (hf : f.Filename = some (f1, Except.ok name)) :
    ∃ o, f.Delete svc cfg s = some o ∧ o.err = none ∧
      o.requests = [S3Request.DeleteObject cfg.AwsS3BucketName
        (cfg.AwsS3BucketPath ++ "/" ++ name)] ∧
      o.store = (svc.DeleteObject s cfg.AwsS3BucketName
        (cfg.AwsS3BucketPath ++ "/" ++ name)).1 := by
  refine ⟨{ f := f1,
            store := (svc.DeleteObject s cfg.AwsS3BucketName
              (cfg.AwsS3BucketPath ++ "/" ++ name)).1,
            requests := [S3Request.DeleteObject cfg.AwsS3BucketName
              (cfg.AwsS3BucketPath ++ "/" ++ name)],
            err := none }, ?_, rfl, rfl, rfl⟩
  unfold File.Delete
  simp only [hf, File.s3Path]

/-- Witness of `Delete_returns_nil` on the file `abcFile` and the service
that denies every call. -/
theorem Delete_returns_nil_witness :
    ∃ o, abcFile.Delete deniedS3 exampleConfig () = some o ∧ o.err = none ∧
      o.requests = [S3Request.DeleteObject exampleConfig.AwsS3BucketName
        (exampleConfig.AwsS3BucketPath ++ "/" ++
          "ba7816bf8f01cfea414140de5dae2223b00361a396177a9cb410ff61f20015ad")] ∧
      o.store = (deniedS3.DeleteObject () exampleConfig.AwsS3BucketName
        (exampleConfig.AwsS3BucketPath ++ "/" ++
          "ba7816bf8f01cfea414140de5dae2223b00361a396177a9cb410ff61f20015ad")).1 :=
  Delete_returns_nil deniedS3 exampleConfig () abcFile _ _ Filename_abcFile

/-- Claim C10, evaluated on the file `abcFile` and a service whose
`DeleteObject` fails with `AccessDenied`: the key is derived, the delete
request is sent and fails, and `Delete` returns nil. -/
theorem Delete_swallows_error :
    (deniedS3.DeleteObject () "bucket"
      "urls/ba7816bf8f01cfea414140de5dae2223b00361a396177a9cb410ff61f20015ad").2
      = some (Error.msg "AccessDenied") ∧
    (abcFile.Delete deniedS3 exampleConfig ()).map (fun o => (o.requests, o.err))
      = some ([S3Request.DeleteObject "bucket"
          "urls/ba7816bf8f01cfea414140de5dae2223b00361a396177a9cb410ff61f20015ad"], none) := by
  refine ⟨rfl, ?_⟩
  unfold File.Delete
  rw [Filename_abcFile]
  rfl

/-! ## Lookups and their failures -/

/-- Claim C13. `Read` on a record with a `nil` URL returns `ErrNotFound`
whatever the database holds, leaving the record alone and logging nothing;
when the scan of the looked-up row reports `sql.ErrNoRows` it returns
`ErrNotFound` and logs nothing; any other scan error is logged and returned
as it is, so that the result is `ErrNotFound` only if the scan error itself
is that value. -/
theorem Read_not_found (urlString : URL → String) (urlParse : String → Except Error URL)
    (u : Url) :
    (u.Url = none → ∀ dbQueryRow,
      u.Read urlString urlParse dbQueryRow =
        { u := u, logged := [], err := some Error.ErrNotFound }) ∧
    (∀ x dbQueryRow, u.Url = some x →
      dbQueryRow readQuery [SQLValue.text (urlString x)] = Except.error Error.ErrNoRows →
      u.Read urlString urlParse dbQueryRow =
        { u := u, logged := [], err := some Error.ErrNotFound }) ∧
    (∀ x dbQueryRow e, u.Url = some x →
      dbQueryRow readQuery [SQLValue.text (urlString x)] = Except.error e →
      e ≠ Error.ErrNoRows →
      u.Read urlString urlParse dbQueryRow = { u := u, logged := [e], err := some e } ∧
      ((u.Read urlString urlParse dbQueryRow).err = some Error.ErrNotFound ↔
        e = Error.ErrNotFound)) := by
  refine ⟨?_, ?_, ?_⟩
  · intro hu dbQueryRow
    unfold Url.Read
    rw [hu]
  · intro x dbQueryRow hu hq
    unfold Url.Read
    rw [hu]
    simp only
    unfold readQuery at hq
    rw [hq]
    unfold Url.UnmarshalSQL
    simp
  · intro x dbQueryRow e hu hq hne
    have hread : u.Read urlString urlParse dbQueryRow =
        { u := u, logged := [e], err := some e } := by
      unfold Url.Read
      rw [hu]
      simp only
      unfold readQuery at hq
      rw [hq]
      unfold Url.UnmarshalSQL
      simp [hne]
    refine ⟨hread, ?_⟩
    rw [hread]
    simp

/-- Witness of claim C13 on the record `fetchedUrl`: a lookup that finds no
row gives `ErrNotFound` without a log entry, and a lookup that fails with a
connection error gives that error, logged. -/
theorem Read_not_found_witness :
    fetchedUrl.Read plainString plainParse queryNoRows =
      { u := fetchedUrl, logged := [], err := some Error.ErrNotFound } ∧
    (fetchedUrl.Read plainString plainParse queryBroken =
      { u := fetchedUrl, logged := [Error.msg "driver: bad connection"],
        err := some (Error.msg "driver: bad connection") } ∧
     ((fetchedUrl.Read plainString plainParse queryBroken).err = some Error.ErrNotFound ↔
       Error.msg "driver: bad connection" = Error.ErrNotFound)) :=
  ⟨(Read_not_found plainString plainParse fetchedUrl).2.1 exampleURL queryNoRows rfl rfl,
   (Read_not_found plainString plainParse fetchedUrl).2.2 exampleURL queryBroken
     (Error.msg "driver: bad connection") rfl rfl (by decide)⟩

/-- Claim C19. `UnmarshalSQL` leaves the receiver as it was when the scan
fails, with `sql.ErrNoRows` or any other error, and when the scanned url
fails to parse, and it returns an error in each of these cases; when the scan
and the parse succeed it returns nil and the receiver holds the nine fields
made from the row, whatever it held before. It returns nil in no other
case. -/
theorem UnmarshalSQL_atomic (urlParse : String → Except Error URL) (u : Url)
    (scan : Except Error UrlRow) :
    (∀ e, scan = Except.error e →
      (u.UnmarshalSQL urlParse scan).u = u ∧
      (u.UnmarshalSQL urlParse scan).err =
        some (if e = Error.ErrNoRows then Error.ErrNotFound else e)) ∧
    (∀ r e, scan = Except.ok r → urlParse r.rawurl = Except.error e →
      (u.UnmarshalSQL urlParse scan).u = u ∧ (u.UnmarshalSQL urlParse scan).err = some e) ∧
    (∀ r x, scan = Except.ok r → urlParse r.rawurl = Except.ok x →
      (u.UnmarshalSQL urlParse scan).err = none ∧
      (u.UnmarshalSQL urlParse scan).u =
        { Url := some x, Created := timeUnix r.created, Updated := timeUnix r.updated,
          LastGet := timeUnix r.lastGet, Host := r.host, Status := r.status,
          ContentType := r.mime, ContentLength := r.length, Title := r.title }) ∧
    ((u.UnmarshalSQL urlParse scan).err = none →
      ∃ r x, scan = Except.ok r ∧ urlParse r.rawurl = Except.ok x) := by
  refine ⟨?_, ?_, ?_, ?_⟩
  · intro e hs
    rw [hs]
    unfold Url.UnmarshalSQL
    by_cases he : e = Error.ErrNoRows
    · simp [he]
    · simp [he]
  · intro r e hs hp
    rw [hs]
    unfold Url.UnmarshalSQL
    simp [hp]
  · intro r x hs hp
    rw [hs]
    unfold Url.UnmarshalSQL
    simp [hp]
  · intro herr
    cases scan with
    | error e =>
      unfold Url.UnmarshalSQL at herr
      by_cases he : e = Error.ErrNoRows
      · simp [he] at herr
      · simp [he] at herr
    | ok r =>
      cases hp : urlParse r.rawurl with
      | error e =>
        unfold Url.UnmarshalSQL at herr
        simp [hp] at herr
      | ok x => exact ⟨r, x, rfl, hp⟩

/-- Witness of claim C19 on the receiver `fetchedUrl`: a row whose url does
not parse leaves it as it was. -/
theorem UnmarshalSQL_atomic_witness :
    (fetchedUrl.UnmarshalSQL plainParse
      (Except.ok { neverFetchedRow with rawurl := "no scheme" })).u = fetchedUrl ∧
    (fetchedUrl.UnmarshalSQL plainParse
      (Except.ok { neverFetchedRow with rawurl := "no scheme" })).err =
        some (Error.msg "missing protocol scheme") :=
  (UnmarshalSQL_atomic plainParse fetchedUrl
    (Except.ok { neverFetchedRow with rawurl := "no scheme" })).2.1
    { neverFetchedRow with rawurl := "no scheme" } (Error.msg "missing protocol scheme")
    rfl rfl

/-! ## Frame of `Insert` and `Update` -/

/-- Claim C16. When the normalized URL is not `nil`, `Update` returns and
changes in the record only `Updated`, set to the current time, `Url`,
replaced by its normalized form, and the clamped `Status` and
`ContentLength`: `Created`, `LastGet`, `Host`, `ContentType` and `Title` are
as before, and the written row carries the seconds of the old `Created` and
`LastGet` and the old `Host`, `ContentType` and `Title`. -/
theorem Update_frame (now : Time) (NormalizeURL : Option URL → Option URL)
    (urlString : URL → String) (dbExec : String → List SQLValue → Option Error)
    (u : Url) (x : URL) (hx : NormalizeURL u.Url = some x) :
    ∃ o, u.Update now NormalizeURL urlString dbExec = some o ∧
      o.u = { u with Updated := now, Url := some x,
                     Status := max u.Status (-1),
                     ContentLength := max u.ContentLength (-1) } ∧
      o.u.Created = u.Created ∧ o.u.LastGet = u.LastGet ∧ o.u.Host = u.Host ∧
      o.u.ContentType = u.ContentType ∧ o.u.Title = u.Title ∧
      o.args.length = 9 ∧
      o.args[0]? = some (SQLValue.text (urlString x)) ∧
      o.args[1]? = some (SQLValue.integer u.Created.Unix) ∧
      o.args[2]? = some (SQLValue.integer now.Unix) ∧
      o.args[3]? =
        some (SQLValue.integer (if u.LastGet.IsZero then 0 else u.LastGet.Unix)) ∧
      o.args[4]? = some (SQLValue.text u.Host) ∧
      o.args[6]? = some (SQLValue.text u.ContentType) ∧
      o.args[8]? = some (SQLValue.text u.Title) := by
  unfold Url.Update Url.SQLArgs
  by_cases hl : u.ContentLength < -1 <;> by_cases hs : u.Status < -1 <;>
    cases hz : u.LastGet.IsZero
  · simp [hx, hl, hs, hz, max_eq_right (le_of_lt hl), max_eq_right (le_of_lt hs)]
  · simp [hx, hl, hs, hz, max_eq_right (le_of_lt hl), max_eq_right (le_of_lt hs)]
  · simp [hx, hl, hs, hz, max_eq_right (le_of_lt hl), max_eq_left (not_lt.mp hs)]
  · simp [hx, hl, hs, hz, max_eq_right (le_of_lt hl), max_eq_left (not_lt.mp hs)]
  · simp [hx, hl, hs, hz, max_eq_left (not_lt.mp hl), max_eq_right (le_of_lt hs)]
  · simp [hx, hl, hs, hz, max_eq_left (not_lt.mp hl), max_eq_right (le_of_lt hs)]
  · simp [hx, hl, hs, hz, max_eq_left (not_lt.mp hl), max_eq_left (not_lt.mp hs)]
  · simp [hx, hl, hs, hz, max_eq_left (not_lt.mp hl), max_eq_left (not_lt.mp hs)]

/-- Witness of claim C16 on the record `fetchedUrl`, updated at Unix second
1500007200. -/
theorem Update_frame_witness :
    ∃ o, fetchedUrl.Update (nowAt 1500007200 11) id plainString execOk = some o ∧
      o.u = { fetchedUrl with Updated := nowAt 1500007200 11, Url := some exampleURL,
                              Status := max fetchedUrl.Status (-1),
                              ContentLength := max fetchedUrl.ContentLength (-1) } ∧
      o.u.Created = fetchedUrl.Created ∧ o.u.LastGet = fetchedUrl.LastGet ∧
      o.u.Host = fetchedUrl.Host ∧
      o.u.ContentType = fetchedUrl.ContentType ∧ o.u.Title = fetchedUrl.Title ∧
      o.args.length = 9 ∧
      o.args[0]? = some (SQLValue.text (plainString exampleURL)) ∧
      o.args[1]? = some (SQLValue.integer fetchedUrl.Created.Unix) ∧
      o.args[2]? = some (SQLValue.integer (nowAt 1500007200 11).Unix) ∧
      o.args[3]? =
        some (SQLValue.integer
          (if fetchedUrl.LastGet.IsZero then 0 else fetchedUrl.LastGet.Unix)) ∧
      o.args[4]? = some (SQLValue.text fetchedUrl.Host) ∧
      o.args[6]? = some (SQLValue.text fetchedUrl.ContentType) ∧
      o.args[8]? = some (SQLValue.text fetchedUrl.Title) :=
  Update_frame (nowAt 1500007200 11) id plainString execOk fetchedUrl exampleURL rfl

/-- Claim C20. When the normalized URL is not `nil`, `Insert` returns
whatever the database answers, and leaves `Created` and `Updated` both equal
to the insertion time, `Url` normalized and `Host` equal to the host of the
normalized URL; the record it leaves, when its URL string is not marked in
flight, is due for a HEAD at every time and for every stale duration. -/
theorem Insert_then_head_due (now : Time) (NormalizeURL : Option URL → Option URL)
    (urlString : URL → String) (dbExec : String → List SQLValue → Option Error)
    (u : Url) (x : URL) (hx : NormalizeURL u.Url = some x) :
    ∃ o, u.Insert now NormalizeURL urlString dbExec = some o ∧
      o.err = dbExec insertQuery o.args ∧
      o.u.Created = now ∧ o.u.Updated = now ∧ o.u.Created = o.u.Updated ∧
      o.u.Url = some x ∧ o.u.Host = x.Host ∧
      ∀ (later : Time) (StaleDuration : Int) (enqued : String → Bool),
        enqued (urlString x) = false →
        o.u.ShouldEnqueueHead later StaleDuration enqued urlString = some true := by
  refine ⟨{ u := { u with Created := now, Updated := now, Url := some x, Host := x.Host },
            query := insertQuery,
            args := [SQLValue.text (urlString x), SQLValue.integer now.Unix,
              SQLValue.integer now.Unix,
              SQLValue.integer (if !u.LastGet.IsZero then u.LastGet.Unix else 0),
              SQLValue.text x.Host, SQLValue.integer u.Status, SQLValue.text u.ContentType,
              SQLValue.integer u.ContentLength, SQLValue.text u.Title],
            err := dbExec insertQuery
              [SQLValue.text (urlString x), SQLValue.integer now.Unix,
                SQLValue.integer now.Unix,
                SQLValue.integer (if !u.LastGet.IsZero then u.LastGet.Unix else 0),
                SQLValue.text x.Host, SQLValue.integer u.Status, SQLValue.text u.ContentType,
                SQLValue.integer u.ContentLength, SQLValue.text u.Title] },
    ?_, rfl, rfl, rfl, rfl, rfl, rfl, ?_⟩
  · simp only [Url.Insert, hx, Url.SQLArgs]
  · intro later StaleDuration enqued he
    simp [Url.ShouldEnqueueHead, he]

/-- Witness of claim C20 on the record `fetchedUrl`, inserted at Unix second
1500007200 into a database that refuses the row. -/
theorem Insert_then_head_due_witness :
    ∃ o, fetchedUrl.Insert (nowAt 1500007200 11) id plainString
        (fun _ _ => some (Error.msg "pq: duplicate key")) = some o ∧
      o.err = (fun _ _ => some (Error.msg "pq: duplicate key")) insertQuery o.args ∧
      o.u.Created = nowAt 1500007200 11 ∧ o.u.Updated = nowAt 1500007200 11 ∧
      o.u.Created = o.u.Updated ∧
      o.u.Url = some exampleURL ∧ o.u.Host = exampleURL.Host ∧
      ∀ (later : Time) (StaleDuration : Int) (enqued : String → Bool),
        enqued (plainString exampleURL) = false →
        o.u.ShouldEnqueueHead later StaleDuration enqued plainString = some true :=
  Insert_then_head_due (nowAt 1500007200 11) id plainString
    (fun _ _ => some (Error.msg "pq: duplicate key")) fetchedUrl exampleURL rfl

/-! ## Layout of the URL row -/

/-- Claim C14. `SQLArgs` of a record with a URL is the list of nine values
url, created, updated, last_get, host, status, content_type, content_length,
title: the order in which `urlCols` names the columns and in which the
statement of `Update` binds them to `$1` to `$9`. `created` and `updated` are
Unix seconds, `last_get` is the Unix second of `LastGet`, or 0 when `LastGet`
is unset. The row scans back into the destinations of `UnmarshalSQL` in the
same order, each value reaching the field of its column. -/
theorem SQLArgs_layout (urlString : URL → String) (urlParse : String → Except Error URL)
    (u v : Url) (x y : URL) (hx : u.Url = some x) (hp : urlParse (urlString x) = Except.ok y) :
    columnNames = ["url", "created", "updated", "last_get", "host", "status",
      "content_type", "content_length", "title"] ∧
    updatePlaceholders = [["url", "$1"], ["created", "$2"], ["updated", "$3"],
      ["last_get", "$4"], ["host", "$5"], ["status", "$6"], ["content_type", "$7"],
      ["content_length", "$8"], ["title", "$9"]] ∧
    u.SQLArgs urlString =
      some [SQLValue.text (urlString x),
            SQLValue.integer u.Created.Unix,
            SQLValue.integer u.Updated.Unix,
            SQLValue.integer (if u.LastGet.IsZero then 0 else u.LastGet.Unix),
            SQLValue.text u.Host,
            SQLValue.integer u.Status,
            SQLValue.text u.ContentType,
            SQLValue.integer u.ContentLength,
            SQLValue.text u.Title] ∧
    (u.SQLArgs urlString).map List.length = some 9 ∧
    ∃ r, (u.SQLArgs urlString).bind scanArgs = some r ∧
      v.UnmarshalSQL urlParse (Except.ok r) =
        { u := { Url := some y,
                 Created := timeUnix u.Created.Unix,
                 Updated := timeUnix u.Updated.Unix,
                 LastGet := timeUnix (if u.LastGet.IsZero then 0 else u.LastGet.Unix),
                 Host := u.Host, Status := u.Status, ContentType := u.ContentType,
                 ContentLength := u.ContentLength, Title := u.Title },
          logged := [], err := none } := by
  have hargs : u.SQLArgs urlString =
      some [SQLValue.text (urlString x),
            SQLValue.integer u.Created.Unix,
            SQLValue.integer u.Updated.Unix,
            SQLValue.integer (if u.LastGet.IsZero then 0 else u.LastGet.Unix),
            SQLValue.text u.Host,
            SQLValue.integer u.Status,
            SQLValue.text u.ContentType,
            SQLValue.integer u.ContentLength,
            SQLValue.text u.Title] := by
    unfold Url.SQLArgs
    rw [hx]
    cases u.LastGet.IsZero <;> simp
  refine ⟨by decide, by decide, hargs, ?_, ?_⟩
  · rw [hargs]; rfl
  · refine ⟨_, scanArgs_SQLArgs urlString u x hx, ?_⟩
    unfold Url.UnmarshalSQL
    simp only [hp]

/-- Witness of claim C14 on the record `neverFetchedUrl`, whose `LastGet` is
unset. -/
theorem SQLArgs_layout_witness :
    neverFetchedUrl.SQLArgs plainString =
      some [SQLValue.text "http://example.com/", SQLValue.integer 1500000000,
            SQLValue.integer 1500000000, SQLValue.integer 0, SQLValue.text "example.com",
            SQLValue.integer 0, SQLValue.text "", SQLValue.integer 0, SQLValue.text ""] :=
  (SQLArgs_layout plainString plainParse neverFetchedUrl fetchedUrl exampleURL exampleURL
    rfl rfl).2.2.1

/-! ## Bounds of the blob key -/

/-- Claim C18. For every file, `calcHash` returns nil and leaves a hash of
68 characters. A file with an empty hash and non-nil data, and a file whose
hash is one that `calcHash` produces, get from `Filename` a name of 64
characters, without a panic of the slice expression. `Filename` returns an
error exactly when the data is nil and the hash is empty. When the hash is
set, `Filename` is the slice `Hash[4:]` of it and does not depend on the
data. -/
theorem Filename_in_bounds (f : File) :
    (f.calcHash.2 = none ∧ f.calcHash.1.Hash.length = 68) ∧
    (f.Hash = "" → f.Data ≠ none →
      ∃ name, f.Filename = some (f.calcHash.1, Except.ok name) ∧ name.length = 64 ∧
        sliceFrom f.calcHash.1.Hash 4 = some name) ∧
    (∀ g : File, f.Hash = g.calcHash.1.Hash →
      ∃ name, f.Filename = some (f, Except.ok name) ∧ name.length = 64 ∧
        sliceFrom f.Hash 4 = some name) ∧
    ((∃ f1 e, f.Filename = some (f1, Except.error e)) ↔ (f.Data = none ∧ f.Hash = "")) ∧
    (f.Hash ≠ "" →
      ∀ data, File.Filename { f with Data := data } =
        (sliceFrom f.Hash 4).map (fun name => ({ f with Data := data }, Except.ok name))) := by
  have hlen : ∀ d : List UInt8, (EncodeToString (sha256Sum d)).length = 64 := by
    intro d
    rw [EncodeToString_length, sha256Sum_length]
  have hset : ∀ h : File, h.Hash ≠ "" →
      h.Filename = (sliceFrom h.Hash 4).map (fun name => (h, Except.ok name)) := by
    intro h hne
    have hb : (h.Hash == "") = false := by
      rw [beq_eq_false_iff_ne]; exact hne
    unfold File.Filename
    simp only [hb, Bool.and_false, Bool.false_eq_true, if_false]
  refine ⟨?_, ?_, ?_, ?_, ?_⟩
  · rw [calcHash_eq]
    refine ⟨rfl, ?_⟩
    show ("1220" ++ EncodeToString (sha256Sum (f.Data.getD []))).length = 68
    rw [String.length_append, hlen]
    rfl
  · intro hh hd
    cases hdata : f.Data with
    | none => exact absurd hdata hd
    | some data =>
      refine ⟨EncodeToString (sha256Sum data), ?_, hlen data, ?_⟩
      · rw [Filename_of_empty_hash f data hdata hh, calcHash_eq, hdata]
        rfl
      · rw [calcHash_eq, hdata]
        exact sliceFrom_1220 _
  · intro g hg
    rw [calcHash_eq] at hg
    have hg' : f.Hash = "1220" ++ EncodeToString (sha256Sum (g.Data.getD [])) := hg
    refine ⟨EncodeToString (sha256Sum (g.Data.getD [])), Filename_of_1220 f _ hg', hlen _, ?_⟩
    rw [hg']
    exact sliceFrom_1220 _
  · constructor
    · rintro ⟨f1, e, hf⟩
      by_cases hh : f.Hash = ""
      · cases hdata : f.Data with
        | none => exact ⟨rfl, hh⟩
        | some data =>
          rw [Filename_of_empty_hash f data hdata hh] at hf
          simp at hf
      · rw [hset f hh] at hf
        cases hsl : sliceFrom f.Hash 4 with
        | none => rw [hsl] at hf; simp at hf
        | some name => rw [hsl] at hf; simp at hf
    · rintro ⟨hd, hh⟩
      refine ⟨f, Error.msg "no data or hash for filename", ?_⟩
      unfold File.Filename
      simp [hd, hh]
  · intro hne data
    exact hset { f with Data := data } hne

/-- Witness of claim C18 on a file whose hash is the one computed for the
bytes `abc` and whose data are other bytes. -/
theorem Filename_in_bounds_witness :
    ∃ name, File.Filename { Url := "", Data := some [1, 2], Hash := abcFile.calcHash.1.Hash } =
        some ({ Url := "", Data := some [1, 2], Hash := abcFile.calcHash.1.Hash },
          Except.ok name) ∧ name.length = 64 ∧
      sliceFrom (File.Hash { Url := "", Data := some [1, 2], Hash := abcFile.calcHash.1.Hash })
        4 = some name :=
  (Filename_in_bounds
    { Url := "", Data := some [1, 2], Hash := abcFile.calcHash.1.Hash }).2.2.1 abcFile rfl

/-! ## Link extraction -/

/-- The fold of `DocLinks` over anchors none of whose addresses panics adds,
in order, the edge or the log line of each anchor. -/
theorem docLinks_foldl (urlResolve : Option URL → String → Option (Except Error URL))
    (NormalizeURL : Option URL → Option URL) (u : Url) (anchors : List Element)
    (h : ∀ s ∈ anchors, (urlResolve u.Url ((s.Attr "href").getD "")).isSome = true)
    (links : List Link) (logged : List String) :
    anchors.foldl (u.docLinksStep urlResolve NormalizeURL) (some (links, logged)) =
      some (links ++ anchors.filterMap (u.edgeOf urlResolve NormalizeURL),
        logged ++ anchors.filterMap (u.logLineOf urlResolve)) := by
  induction anchors generalizing links logged with
  | nil => simp
  | cons s rest ih =>
    have hs := h s (List.mem_cons_self _ _)
    have hrest : ∀ t ∈ rest, (urlResolve u.Url ((t.Attr "href").getD "")).isSome = true :=
      fun t ht => h t (List.mem_cons_of_mem _ ht)
    rw [List.foldl_cons]
    cases hr : urlResolve u.Url ((s.Attr "href").getD "") with
    | none => rw [hr] at hs; simp at hs
    | some r =>
      cases r with
      | error err =>
        have hstep : u.docLinksStep urlResolve NormalizeURL (some (links, logged)) s =
            some (links, logged ++
              ["error: resolve URL " ++ (s.Attr "href").getD "" ++ " - " ++ err.Error ++ "\n"]) := by
          simp only [Url.docLinksStep, hr]
        rw [hstep, ih hrest]
        simp [List.filterMap_cons, Url.edgeOf, Url.logLineOf, hr]
      | ok address =>
        have hstep : u.docLinksStep urlResolve NormalizeURL (some (links, logged)) s =
            some (links ++
              [{ Src := u, Dst := { Url.zero with Url := NormalizeURL (some address) } }],
              logged) := by
          simp only [Url.docLinksStep, hr]
        rw [hstep, ih hrest]
        simp [List.filterMap_cons, Url.edgeOf, Url.logLineOf, hr]

/-- Each anchor whose address does not panic gives either an edge or a log
line. -/
theorem edges_and_log_lines (urlResolve : Option URL → String → Option (Except Error URL))
    (NormalizeURL : Option URL → Option URL) (u : Url) (anchors : List Element)
    (h : ∀ s ∈ anchors, (urlResolve u.Url ((s.Attr "href").getD "")).isSome = true) :
    (anchors.filterMap (u.edgeOf urlResolve NormalizeURL)).length +
      (anchors.filterMap (u.logLineOf urlResolve)).length = anchors.length := by
  induction anchors with
  | nil => rfl
  | cons s rest ih =>
    have hs := h s (List.mem_cons_self _ _)
    have ih' := ih (fun t ht => h t (List.mem_cons_of_mem _ ht))
    cases hr : urlResolve u.Url ((s.Attr "href").getD "") with
    | none => rw [hr] at hs; simp at hs
    | some r =>
      cases r with
      | error err =>
        simp only [List.filterMap_cons, Url.edgeOf, Url.logLineOf, hr, List.length_cons] at ih' ⊢
        omega
      | ok address =>
        simp only [List.filterMap_cons, Url.edgeOf, Url.logLineOf, hr, List.length_cons] at ih' ⊢
        omega

/-- Claim C12. When no address of the document makes `(*url.URL).Parse`
panic, `DocLinks` returns a nil error and, in document order, one edge for
each `a[href]` anchor whose address resolves: its `Src` is the receiver and
its `Dst` is a fresh record of the normalized resolved address. An anchor
whose address fails to parse gives a log line and no edge; every anchor gives
one or the other, so equal edges are kept. The edges of a document made of
two parts are the edges of the first part followed by those of the second. -/
theorem DocLinks_edges (urlResolve : Option URL → String → Option (Except Error URL))
    (NormalizeURL : Option URL → Option URL) (u : Url) (doc : Document)
    (h : ∀ s ∈ doc.anchors, (urlResolve u.Url ((s.Attr "href").getD "")).isSome = true) :
    ∃ o, u.DocLinks urlResolve NormalizeURL doc = some o ∧ o.err = none ∧
      o.links = doc.anchors.filterMap (u.edgeOf urlResolve NormalizeURL) ∧
      o.logged = doc.anchors.filterMap (u.logLineOf urlResolve) ∧
      o.links.length + o.logged.length = doc.anchors.length ∧
      (∀ l ∈ o.links, l.Src = u ∧
        ∃ s ∈ doc.anchors, ∃ address,
          urlResolve u.Url ((s.Attr "href").getD "") = some (Except.ok address) ∧
          l.Dst = { Url.zero with Url := NormalizeURL (some address) }) ∧
      (∀ first second : Document, doc = first ++ second →
        o.links = first.anchors.filterMap (u.edgeOf urlResolve NormalizeURL) ++
          second.anchors.filterMap (u.edgeOf urlResolve NormalizeURL)) := by
  refine ⟨{ links := doc.anchors.filterMap (u.edgeOf urlResolve NormalizeURL),
            logged := doc.anchors.filterMap (u.logLineOf urlResolve),
            err := none }, ?_, rfl, rfl, rfl, ?_, ?_, ?_⟩
  · unfold Url.DocLinks
    rw [docLinks_foldl urlResolve NormalizeURL u doc.anchors h [] []]
    simp
  · exact edges_and_log_lines urlResolve NormalizeURL u doc.anchors h
  · intro l hl
    simp only [List.mem_filterMap] at hl
    obtain ⟨s, hs, hedge⟩ := hl
    unfold Url.edgeOf at hedge
    cases hr : urlResolve u.Url ((s.Attr "href").getD "") with
    | none => rw [hr] at hedge; simp at hedge
    | some r =>
      cases r with
      | error err => rw [hr] at hedge; simp at hedge
      | ok address =>
        rw [hr] at hedge
        simp only [Option.some.injEq] at hedge
        subst hedge
        exact ⟨rfl, s, hs, address, hr, rfl⟩
  · intro first second hdoc
    subst hdoc
    simp only [Document.anchors, List.filter_append, List.filterMap_append]

/-- Witness of claim C12 on the page `sitePage` and the document
`sitePageDoc`, none of whose addresses panics. -/
theorem DocLinks_edges_witness :
    ∃ o, sitePage.DocLinks resolveURL NormalizeURL sitePageDoc = some o ∧ o.err = none ∧
      o.links = sitePageDoc.anchors.filterMap (sitePage.edgeOf resolveURL NormalizeURL) ∧
      o.logged = sitePageDoc.anchors.filterMap (sitePage.logLineOf resolveURL) ∧
      o.links.length + o.logged.length = sitePageDoc.anchors.length ∧
      (∀ l ∈ o.links, l.Src = sitePage ∧
        ∃ s ∈ sitePageDoc.anchors, ∃ address,
          resolveURL sitePage.Url ((s.Attr "href").getD "") = some (Except.ok address) ∧
          l.Dst = { Url.zero with Url := NormalizeURL (some address) }) ∧
      (∀ first second : Document, sitePageDoc = first ++ second →
        o.links = first.anchors.filterMap (sitePage.edgeOf resolveURL NormalizeURL) ++
          second.anchors.filterMap (sitePage.edgeOf resolveURL NormalizeURL)) :=
  DocLinks_edges resolveURL NormalizeURL sitePage sitePageDoc (by decide)

/-- Claim C11. On the page `http://site.com/page` and a document whose
anchors carry, in this order, the addresses `/a`, `http://x.com/b` and
`#frag`, `DocLinks` returns nil, logs nothing and returns three edges from
the page, to `http://site.com/a`, `http://x.com/b` and `http://site.com/page`
in this order. The address `#frag` resolves to `http://site.com/page#frag`,
of which the normalizer drops the fragment. -/
theorem DocLinks_example :
    parseURL "http://site.com/page" = Except.ok sitePageURL ∧
    (sitePageDoc.anchors.map (fun s => (s.Attr "href").getD "")
      = ["/a", "http://x.com/b", "#frag"]) ∧
    (sitePage.DocLinks resolveURL NormalizeURL sitePageDoc).map
      (fun o => (o.links.map (fun l => (l.Src, l.Dst.Url.map urlText)), o.logged, o.err))
      = some ([(sitePage, some "http://site.com/a"), (sitePage, some "http://x.com/b"),
          (sitePage, some "http://site.com/page")], [], none) ∧
    (sitePage.DocLinks resolveURL NormalizeURL sitePageDoc).map
      (fun o => o.links.map (fun l => l.Dst))
      = some [{ Url.zero with Url := some { sitePageURL with Path := "/a" } },
          { Url.zero with Url := some { sitePageURL with Host := "x.com", Path := "/b" } },
          { Url.zero with Url := some sitePageURL }] ∧
    (resolveURL (some sitePageURL) "#frag").map (fun r => r.toOption.map urlText)
      = some (some "http://site.com/page#frag") := by
  refine ⟨rfl, by decide, by decide, by decide, by decide⟩

/-! ## Snapshots written and read back -/

/-- A snapshot written by `WriteSnapshot` is read back by
`Snapshot.UnmarshalSQL` with the JSON text of the headers in `Hash` and with
the decoding of the hash text as `Headers`; when the hash text does not decode
as a JSON array of strings the read fails. -/
theorem snapshotRoundTrip_eq (jsonMarshal : Option (List String) → Except Error String)
    (jsonUnmarshal : String → Except Error (Option (List String))) (u : ArchiveUrl)
    (data : String) (lastGet : Time) (hm : jsonMarshal u.Headers = Except.ok data)
    (ht : u.LastGet = some lastGet) :
    snapshotRoundTrip jsonMarshal jsonUnmarshal u =
      some ({ url := u.Url, created := lastGet.InUTC.RoundSecond, status := u.Status,
              duration := u.DownloadTook, meta := some data, hash := u.Hash },
        match jsonUnmarshal u.Hash with
        | Except.error err =>
          ({ Url := "", Created := Time.zero, Status := 0, Duration := 0, Headers := none,
             Hash := "" }, some err)
        | Except.ok headers =>
          ({ Url := u.Url, Created := lastGet.InUTC.RoundSecond.InUTC, Status := u.Status,
             Duration := u.DownloadTook, Headers := headers, Hash := data }, none)) := by
  unfold snapshotRoundTrip WriteSnapshot
  simp only [hm, ht, scanSnapshot, Snapshot.UnmarshalSQL]

/-- Witness of `snapshotRoundTrip_eq` on the page `fetchedPage`. -/
theorem snapshotRoundTrip_eq_witness :
    snapshotRoundTrip marshalStrings unmarshalStrings fetchedPage =
      some ({ url := fetchedPage.Url, created := (timeUnix 1500003600).InUTC.RoundSecond,
              status := fetchedPage.Status, duration := fetchedPage.DownloadTook,
              meta := some "[\"Content-Type\",\"text/html\"]", hash := fetchedPage.Hash },
        match unmarshalStrings fetchedPage.Hash with
        | Except.error err =>
          ({ Url := "", Created := Time.zero, Status := 0, Duration := 0, Headers := none,
             Hash := "" }, some err)
        | Except.ok headers =>
          ({ Url := fetchedPage.Url,
             Created := (timeUnix 1500003600).InUTC.RoundSecond.InUTC,
             Status := fetchedPage.Status, Duration := fetchedPage.DownloadTook,
             Headers := headers, Hash := "[\"Content-Type\",\"text/html\"]" }, none)) :=
  snapshotRoundTrip_eq marshalStrings unmarshalStrings fetchedPage
    "[\"Content-Type\",\"text/html\"]" (timeUnix 1500003600) rfl rfl

/-- Claim C17, evaluated on the page `fetchedPage`, with the headers
`Content-Type`, `text/html` and the hash of the bytes `abc`. The row is
written in the column order url, created, status, duration, meta, hash. The
scan stores the fifth column, the JSON text of the headers, in `hash` and the
sixth column, the hash, in `headerData`; decoding the hash as JSON fails, so
that `UnmarshalSQL` returns an error and leaves the receiver as it was. -/
theorem Snapshot_read_back :
    (snapshotRoundTrip marshalStrings unmarshalStrings fetchedPage).map
      (fun r => (r.1.meta, r.1.hash, (scanSnapshot r.1).toOption.map (fun v => v.hash),
        (scanSnapshot r.1).toOption.map (fun v => v.headerData), r.2.1.Hash, r.2.1.Headers,
        r.2.2))
      = some (some "[\"Content-Type\",\"text/html\"]",
          "1220ba7816bf8f01cfea414140de5dae2223b00361a396177a9cb410ff61f20015ad",
          some "[\"Content-Type\",\"text/html\"]",
          some (some "1220ba7816bf8f01cfea414140de5dae2223b00361a396177a9cb410ff61f20015ad"),
          "", none, some (Error.msg "json: text is not a []string")) := by
  rfl

/-! ## Eligibility over time -/

/-- Saturation to the range of `Duration` keeps the order. -/
theorem saturate_mono (a b : Int) (h : a ≤ b) : saturate a ≤ saturate b := by
  unfold saturate maxDuration minDuration
  split_ifs <;> omega

/-- Witness of `saturate_mono` on the durations of one and of two hours. -/
theorem saturate_mono_witness : saturate Hour ≤ saturate (2 * Hour) :=
  saturate_mono Hour (2 * Hour) (by decide)

/-- At a reading of the clock that is not before another, the time since any
instant is not shorter. -/
theorem Since_mono (now later t : Time) (h : later.notBefore now = true) :
    Since now t ≤ Since later t := by
  unfold Time.notBefore at h
  simp only [Bool.and_eq_true, decide_eq_true_eq] at h
  obtain ⟨hwall, hmono⟩ := h
  have hdiff : now.wallDiff t ≤ later.wallDiff t := by
    unfold Time.wallDiff at hwall ⊢
    omega
  unfold Since Time.Sub
  cases hn : now.mono with
  | none =>
    cases hl : later.mono with
    | none => exact saturate_mono _ _ hdiff
    | some b => rw [hn, hl] at hmono; simp at hmono
  | some a =>
    cases hl : later.mono with
    | none => rw [hn, hl] at hmono; simp at hmono
    | some b =>
      rw [hn, hl] at hmono
      simp only [decide_eq_true_eq] at hmono
      cases t.mono with
      | none => exact saturate_mono _ _ hdiff
      | some c => exact saturate_mono _ _ (by omega)

/-- Witness of `Since_mono` on two readings of the clock, one second
apart. -/
theorem Since_mono_witness :
    Since (nowAt 1500010800 5) fetchedUrl.LastGet ≤
      Since (nowAt 1500010801 1000000005) fetchedUrl.LastGet :=
  Since_mono (nowAt 1500010800 5) (nowAt 1500010801 1000000005) fetchedUrl.LastGet
    (by decide)

/-- Claim C21. For a fixed record and stale duration, and an in-flight map
that keeps the marker of the record's URL string, `ShouldEnqueueGet` that is
true at one reading of the clock is true at every reading that is not before
it, and so is `ShouldEnqueueHead`. -/
theorem eligibility_monotone (now later : Time) (StaleDuration : Int)
    (enqued enquedLater : String → Bool) (urlString : URL → String) (u : Url)
    (h : later.notBefore now = true)
    (hm : ∀ x, u.Url = some x → enquedLater (urlString x) = enqued (urlString x)) :
    (u.ShouldEnqueueGet now StaleDuration enqued urlString = some true →
      u.ShouldEnqueueGet later StaleDuration enquedLater urlString = some true) ∧
    (u.ShouldEnqueueHead now StaleDuration enqued urlString = some true →
      u.ShouldEnqueueHead later StaleDuration enquedLater urlString = some true) := by
  have hget := Since_mono now later u.LastGet h
  have hhead := Since_mono now later u.Updated h
  refine ⟨?_, ?_⟩
  · intro hdue
    unfold Url.ShouldEnqueueGet at hdue ⊢
    by_cases hc : (u.LastGet.IsZero || decide (Since now u.LastGet > StaleDuration)) = true
    · rw [if_pos hc] at hdue
      have hc' : (u.LastGet.IsZero ||
          decide (Since later u.LastGet > StaleDuration)) = true := by
        simp only [Bool.or_eq_true, decide_eq_true_eq] at hc ⊢
        rcases hc with hz | hs
        · exact Or.inl hz
        · exact Or.inr (by omega)
      rw [if_pos hc']
      cases hu : u.Url with
      | none => rw [hu] at hdue; simp at hdue
      | some x =>
        rw [hu] at hdue
        simp only [hm x hu]
        exact hdue
    · rw [if_neg hc] at hdue
      simp at hdue
  · intro hdue
    unfold Url.ShouldEnqueueHead at hdue ⊢
    by_cases hc : (decide (u.Created = u.Updated) || u.LastGet.IsZero
        || decide (Since now u.Updated > StaleDuration)) = true
    · rw [if_pos hc] at hdue
      have hc' : (decide (u.Created = u.Updated) || u.LastGet.IsZero
          || decide (Since later u.Updated > StaleDuration)) = true := by
        simp only [Bool.or_eq_true, decide_eq_true_eq] at hc ⊢
        rcases hc with (he | hz) | hs
        · exact Or.inl (Or.inl he)
        · exact Or.inl (Or.inr hz)
        · exact Or.inr (by omega)
      rw [if_pos hc']
      cases hu : u.Url with
      | none => rw [hu] at hdue; simp at hdue
      | some x =>
        rw [hu] at hdue
        simp only [hm x hu]
        exact hdue
    · rw [if_neg hc] at hdue
      simp at hdue

/-- Witness of claim C21 on the record `storedUrl`, whose last GET and last
update were at Unix second 1500003600: with a stale duration of one hour it
is due for a GET and for a HEAD at Unix second 1500010800, and so it is at
Unix second 1500020000. -/
theorem eligibility_monotone_witness :
    storedUrl.ShouldEnqueueGet (nowAt 1500010800 5) Hour noneEnqued plainString = some true ∧
    storedUrl.ShouldEnqueueHead (nowAt 1500010800 5) Hour noneEnqued plainString = some true ∧
    storedUrl.ShouldEnqueueGet (nowAt 1500020000 9200000000005) Hour noneEnqued plainString
      = some true ∧
    storedUrl.ShouldEnqueueHead (nowAt 1500020000 9200000000005) Hour noneEnqued plainString
      = some true :=
  ⟨by decide, by decide,
   (eligibility_monotone (nowAt 1500010800 5) (nowAt 1500020000 9200000000005) Hour
      noneEnqued noneEnqued plainString storedUrl (by decide) (fun _ _ => rfl)).1 (by decide),
   (eligibility_monotone (nowAt 1500010800 5) (nowAt 1500020000 9200000000005) Hour
      noneEnqued noneEnqued plainString storedUrl (by decide) (fun _ _ => rfl)).2 (by decide)⟩

/-- The order of the wall clock is needed for a record read from the
database: when the wall clock is set back by two hours between two readings
whose monotonic readings advance, `storedUrl` is due for a GET at the first
reading and not at the second. -/
theorem wall_clock_set_back :
    storedUrl.ShouldEnqueueGet (nowAt 1500010800 5) Hour noneEnqued plainString = some true ∧
    storedUrl.ShouldEnqueueGet (nowAt 1500003601 1000000005) Hour noneEnqued plainString
      = some false ∧
    (nowAt 1500003601 1000000005).notBefore (nowAt 1500010800 5) = false := by
  decide

end Sentry
